import Mathlib

/-!
Shift scheduler front end: time-slot codec and schedule-grid compilation.

A shallow embedding of `static/script.js` (`jsTimeToSlot`, `jsSlotToTimeStr`,
`jsParseTimeRange`, `isValidTimeFormat`, `formatGridAsTable`, `handleAddJobTime`,
`handleAddJobDefinition`, `handleClearJobs`) and theorems about it.

Modelling conventions.

* A JavaScript string is a `List Char`, one `Char` per UTF-16 code unit, so the
  model covers strings of characters of the Basic Multilingual Plane.
* JavaScript numbers that the code computes from parsed digits are modelled as exact
  integers (`Int`, `Nat`); this agrees with IEEE doubles below `2 ^ 53`.
  The argument of `jsSlotToTimeStr`, which may be any finite number, is a rational.
* `null` is `none`.
* The DOM table built by `formatGridAsTable` is modelled as the tree of its rows and
  cells (text content, class name, title), before serialisation by `outerHTML`.
* The variables `currentJobTimeRanges` and `allJobDefinitions` of the page are the two
  fields of a store that every handler takes and returns; the runtime's `toUpperCase` and
  `localeCompare` are parameters of `handleAddJobDefinition`.
-/

namespace ShiftScheduler

/-- A JavaScript string: the list of its code units. -/
abbrev JsString := List Char

/-! ## Built-ins of the JavaScript runtime used by the code -/

/-- The characters removed by `String.prototype.trim` and skipped by `parseInt`:
ECMAScript `WhiteSpace` and `LineTerminator`. -/
def isJsWhiteSpace (c : Char) : Bool :=
  let n := c.toNat
  n == 0x09 || n == 0x0A || n == 0x0B || n == 0x0C || n == 0x0D || n == 0x20 ||
  n == 0xA0 || n == 0x1680 || (0x2000 ≤ n && n ≤ 0x200A) || n == 0x2028 ||
  n == 0x2029 || n == 0x202F || n == 0x205F || n == 0x3000 || n == 0xFEFF

/-- The method `String.prototype.trim`. -/
def jsTrim (s : JsString) : JsString :=
  ((s.dropWhile isJsWhiteSpace).reverse.dropWhile isJsWhiteSpace).reverse

/-- The method `String.prototype.split` with a separator of one character. -/
def jsSplit (sep : Char) : JsString → List JsString
  | [] => [[]]
  | c :: cs =>
    if c = sep then [] :: jsSplit sep cs
    else
      match jsSplit sep cs with
      | [] => [[c]]
      | p :: ps => (c :: p) :: ps

/-- The method `String.prototype.includes` with a search string of one character. -/
def jsIncludes (s : JsString) (c : Char) : Bool := s.contains c

/-- The value of a string of decimal digits. -/
def digitsValue (z : JsString) : Nat :=
  z.foldl (fun acc c => acc * 10 + (c.toNat - 48)) 0

/-- The call `parseInt(s, 10)`: leading white space is skipped, one sign is read, then the
longest run of decimal digits; `none` is `NaN`. -/
def jsParseInt10 (s : JsString) : Option Int :=
  let t := s.dropWhile isJsWhiteSpace
  let neg := t.head? == some '-'
  let u := if t.head? == some '-' || t.head? == some '+' then t.tail else t
  let z := u.takeWhile Char.isDigit
  if z.isEmpty then none
  else some (if neg then -(digitsValue z : Int) else (digitsValue z : Int))

/-- Decimal digits of `n`, most significant first, with `fuel` bounding the number of
digits. -/
def decimalDigits : Nat → Nat → JsString
  | 0, _ => []
  | fuel + 1, n =>
    if n < 10 then [Nat.digitChar n]
    else decimalDigits fuel (n / 10) ++ [Nat.digitChar (n % 10)]

/-- The conversion `String(n)` of a non-negative integer `n`: its decimal digits. This is what
the runtime prints for every integer below `2 ^ 53`; above that a number is a rounded double
and `String` prints its shortest numeral, so statements about larger values carry the bound. -/
def jsNumberToString (n : Nat) : JsString := decimalDigits (n + 1) n

/-- The call `s.padStart(2, '0')`. -/
def padStart2 (s : JsString) : JsString :=
  List.replicate (2 - s.length) '0' ++ s

/-! ## Time-slot codec -/

/-- The function `isValidTimeFormat`: the test of the pattern `^\d{1,2}:\d{2}$`. -/
def isValidTimeFormat (timeStr : JsString) : Bool :=
  match timeStr with
  | [a, c, m1, m0] => a.isDigit && c == ':' && m1.isDigit && m0.isDigit
  | [a, b, c, m1, m0] => a.isDigit && b.isDigit && c == ':' && m1.isDigit && m0.isDigit
  | _ => false

/-- The function `jsTimeToSlot` on a string argument. -/
def jsTimeToSlot (timeStr : JsString) : Option Nat :=
  if timeStr.isEmpty then none
  else
    match jsSplit ':' timeStr with
    | [p0, p1] =>
      match jsParseInt10 p0, jsParseInt10 p1 with
      | some h, some m =>
        if m < 0 ∨ m > 59 ∨ h < 0 then none
        else some (h.toNat * 2 + m.toNat / 30)
      | _, _ => none
    | _ => none

/-- The body of `jsSlotToTimeStr` below its guard, for a non-negative integer. -/
def slotToTimeStr (n : Nat) : JsString :=
  let h := n / 2
  let m := (n % 2) * 30
  padStart2 (jsNumberToString h) ++ ':' :: padStart2 (jsNumberToString m)

/-- The function `jsSlotToTimeStr` on a numeric argument. -/
def jsSlotToTimeStr (slotIndex : ℚ) : JsString :=
  if slotIndex < 0 ∨ ¬ slotIndex.isInt then "??:??".toList
  else slotToTimeStr slotIndex.num.toNat

/-- The EN DASH, U+2013. -/
def enDash : Char := Char.ofNat 0x2013

/-- The function `jsParseTimeRange` on a string argument. -/
def jsParseTimeRange (rangeStr : JsString) : Option Nat × Option Nat :=
  if rangeStr.isEmpty then (none, none)
  else
    let parts? : Option (List JsString) :=
      if jsIncludes rangeStr enDash then some (jsSplit enDash rangeStr)
      else if jsIncludes rangeStr '-' then some (jsSplit '-' rangeStr)
      else none
    match parts? with
    | some [p0, p1] =>
      match jsTimeToSlot (jsTrim p0), jsTimeToSlot (jsTrim p1) with
      | some startSlot, some endSlot => (some startSlot, some endSlot)
      | _, _ => (none, none)
    | _ => (none, none)

/-! ## Grid compilation -/

/-- The method `String.prototype.toLowerCase`. Characters whose lower case lies outside
ASCII are kept as they are: the only caller removes every character outside `a`-`z`,
`0`-`9` from the result, and the characters whose lower case contains an ASCII letter are
`A`-`Z`, U+212A (lower case `k`) and U+0130 (lower case `i`, U+0307). -/
def jsToLowerCase (s : JsString) : JsString :=
  (s.map fun c =>
    if 65 ≤ c.toNat ∧ c.toNat ≤ 90 then [Char.ofNat (c.toNat + 32)]
    else if c.toNat = 0x212A then ['k']
    else if c.toNat = 0x0130 then ['i', Char.ofNat 0x0307]
    else [c]).flatten

/-- The characters kept by `replace(/[^a-z0-9]/g, '')`. -/
def isLowerAlphaNum (c : Char) : Bool :=
  (97 ≤ c.toNat && c.toNat ≤ 122) || (48 ≤ c.toNat && c.toNat ≤ 57)

/-- The value of a digit of a hexadecimal numeral. -/
def hexDigitValue (c : Char) : Nat :=
  if c.isDigit then c.toNat - 48
  else if 97 ≤ c.toNat then c.toNat - 87
  else c.toNat - 55

/-- The characters that are hexadecimal digits. -/
def isHexDigit (c : Char) : Bool :=
  c.isDigit || (97 ≤ c.toNat && c.toNat ≤ 102) || (65 ≤ c.toNat && c.toNat ≤ 70)

/-- The call `parseInt(s)` without a radix: as `parseInt(s, 10)`, except that a numeral
that starts with `0x` or `0X` is read in base sixteen. -/
def jsParseInt (s : JsString) : Option Int :=
  let t := s.dropWhile isJsWhiteSpace
  let neg := t.head? == some '-'
  let u := if t.head? == some '-' || t.head? == some '+' then t.tail else t
  let hex := u.take 2 == ['0', 'x'] || u.take 2 == ['0', 'X']
  let z := if hex then (u.drop 2).takeWhile isHexDigit else u.takeWhile Char.isDigit
  let v : Nat :=
    if hex then z.foldl (fun acc c => acc * 16 + hexDigitValue c) 0 else digitsValue z
  if z.isEmpty then none
  else some (if neg then -(v : Int) else (v : Int))

/-- A table cell: the properties `textContent`, `className` and `title` of the element. -/
structure Cell where
  textContent : JsString
  className : JsString
  title : JsString
  deriving DecidableEq

/-- A row of the table body: its class name and its cells in the order of insertion, the
name cell first. -/
structure Row where
  className : JsString
  cells : List Cell
  deriving DecidableEq

/-- The table element: its class name, the text of the header cells and the body rows. -/
structure Table where
  className : JsString
  headerCells : List JsString
  bodyRows : List Row
  deriving DecidableEq

/-- What `formatGridAsTable` returns: a literal piece of markup, or the table built (the
code returns its `outerHTML`). -/
inductive Rendered where
  | markup (html : JsString)
  | table (t : Table)
  deriving DecidableEq

/-- An unfilled-slot record of the report. -/
structure UnfilledSlot where
  time_slot : JsString
  job_code : JsString
  deriving DecidableEq

/-- The solution grid: an object from employee keys to arrays of per-slot labels, as the
list of its properties; a property is looked up from the front. -/
abbrev GridData := List (JsString × List JsString)

/-- The call `Object.keys(gridData)`. -/
def objectKeys (gridData : GridData) : List JsString :=
  (gridData.map Prod.fst).dedup

/-- The value `kFromInput`, from the value of the input `k-employees`. -/
def kFromInput (kValue : JsString) (gridData : Option GridData) : Int :=
  let employeeKeys : List JsString :=
    match gridData with
    | some g => objectKeys g
    | none => []
  match jsParseInt kValue with
  | some k => if k ≠ 0 then k else (employeeKeys.length : Int)
  | none => (employeeKeys.length : Int)

/-- The text of the header cell of absolute slot `sAbs`. -/
def timeHeader (sAbs : Nat) : JsString :=
  let h := sAbs / 2
  let m := (sAbs % 2) * 30
  padStart2 (jsNumberToString h) ++ padStart2 (jsNumberToString m)

/-- The cell of an employee row for the label `task`. -/
def taskCell (task : JsString) : Cell :=
  if task = ['R'] ∨ task = ['.'] then
    { textContent := ['.'], className := "task-rest".toList, title := task }
  else if ¬ task.isEmpty ∧ jsTrim task ≠ [] then
    { textContent := task,
      className := "task-work".toList ++
        (" task-code-".toList ++ (jsToLowerCase task).filter isLowerAlphaNum),
      title := task }
  else
    { textContent := task, className := "task-empty".toList, title := task }

/-- The row of the employee of index `empIdx`. -/
def employeeRow (gridData : Option GridData) (numSlots empIdx : Nat) : Row :=
  let empKey : JsString := 'K' :: jsNumberToString (empIdx + 1)
  let schedule : List JsString :=
    match gridData.bind (fun g => g.lookup empKey) with
    | some a => a
    | none => List.replicate numSlots []
  { className := [],
    cells :=
      { textContent := empKey, className := "employee-name-cell".toList, title := [] } ::
        (List.range numSlots).map fun i => taskCell (schedule.getD i []) }

/-- One step of the loop over the unfilled-slot records: the job codes per slot. -/
def recordUnfilled (acc : Nat → List JsString) (unfilled : UnfilledSlot) :
    Nat → List JsString :=
  match jsTimeToSlot unfilled.time_slot with
  | none => acc
  | some slot =>
    if unfilled.job_code ∈ acc slot then acc
    else Function.update acc slot (acc slot ++ [unfilled.job_code])

/-- The object `unfilledJobsAtSlot` after the loop over the records. -/
def unfilledJobsAtSlot (unfilledSlots : Option (List UnfilledSlot)) : Nat → List JsString :=
  (unfilledSlots.getD []).foldl recordUnfilled (fun _ => [])

/-- The method `Array.prototype.join` with the separator `,`. -/
def jsJoin : List JsString → JsString
  | [] => []
  | [a] => a
  | a :: b :: rest => a ++ ',' :: jsJoin (b :: rest)

/-- The method `Array.prototype.sort` on strings: ascending order of code units. -/
def jsSort (l : List JsString) : List JsString :=
  l.insertionSort (fun a b => a ≤ b)

/-- The cell of the shortage row for the job codes recorded at one slot. -/
def shortageCell (codes : List JsString) : Cell :=
  if codes.length > 0 then
    let sorted := jsSort codes
    let sdText := jsJoin sorted
    let shown :=
      if sdText.length > 4 ∧ sorted.length > 1 then sdText.take 3 ++ ['+']
      else if sdText.length > 4 then sdText.take 4
      else sdText
    { textContent := shown, className := "task-unfilled".toList, title := jsJoin sorted }
  else
    { textContent := [], className := "task-empty".toList, title := [] }

/-- The shortage row. -/
def shortageRow (unfilledSlots : Option (List UnfilledSlot)) (startSlotAbs numSlots : Nat) :
    Row :=
  { className := "sd-row".toList,
    cells :=
      { textContent := "SD".toList, className := "employee-name-cell".toList, title := [] } ::
        (List.range numSlots).map fun i =>
          shortageCell (unfilledJobsAtSlot unfilledSlots (startSlotAbs + i)) }

/-- The markup returned when there is neither a grid nor a successful status. -/
def noGridMarkup : JsString := "<p>無有效的排班網格可顯示。</p>".toList

/-- The markup returned when the schedule period cannot be used. -/
def badPeriodMarkup : JsString := "<p>無法解析排班時段以生成網格。</p>".toList

/-- The markup returned by the second test of the number of slots. -/
def noSlotsMarkup : JsString := "<p>排班時段無效。</p>".toList

/-- The function `formatGridAsTable`; `kValue` is the value of the input `k-employees`,
which the function reads from the document. -/
def formatGridAsTable (kValue : JsString) (gridData : Option GridData)
    (unfilledSlots : Option (List UnfilledSlot)) (schedulePeriodStr : JsString)
    (status : JsString) : Rendered :=
  if gridData.isNone ∧ status ≠ "OPTIMAL".toList ∧ status ≠ "FEASIBLE".toList then
    .markup noGridMarkup
  else
    match jsParseTimeRange schedulePeriodStr with
    | (some startSlotAbs, some endSlotAbs) =>
      if endSlotAbs ≤ startSlotAbs then .markup badPeriodMarkup
      else
        let numSlots := endSlotAbs - startSlotAbs
        if numSlots ≤ 0 then .markup noSlotsMarkup
        else
          .table
            { className := "schedule-grid-table".toList,
              headerCells :=
                "員工".toList ::
                  (List.range numSlots).map fun i => timeHeader (i + startSlotAbs),
              bodyRows :=
                (List.range (kFromInput kValue gridData).toNat).map
                    (employeeRow gridData numSlots) ++
                  [shortageRow unfilledSlots startSlotAbs numSlots] }
    | _ => .markup badPeriodMarkup

/-! ## Job-definition store -/

/-- An entry of the array `allJobDefinitions`. -/
structure JobDefinition where
  code : JsString
  times : List JsString
  deriving DecidableEq

/-- The variables `currentJobTimeRanges` and `allJobDefinitions` of the page. -/
structure JobStore where
  currentJobTimeRanges : List JsString
  allJobDefinitions : List JobDefinition
  deriving DecidableEq

/-- The store when the page has loaded. -/
def initialStore : JobStore :=
  { currentJobTimeRanges := [], allJobDefinitions := [] }

/-- The function `handleAddJobTime`; `start` and `endValue` are the values of the selects
`job-time-start` and `job-time-end`. -/
def handleAddJobTime (st : JobStore) (start endValue : JsString) : JobStore :=
  if start.isEmpty ∨ endValue.isEmpty then st
  else
    match jsTimeToSlot start, jsTimeToSlot endValue with
    | some startSlot, some endSlot =>
      if endSlot ≤ startSlot then st
      else
        let timeRange := start ++ enDash :: endValue
        if timeRange ∈ st.currentJobTimeRanges then st
        else { st with currentJobTimeRanges := jsSort (st.currentJobTimeRanges ++ [timeRange]) }
    | _, _ => st

/-- The `onclick` handler of the delete button of the chip rendered at `index`:
`currentJobTimeRanges.splice(index, 1)`. -/
def handleDeleteJobTime (st : JobStore) (index : Nat) : JobStore :=
  { st with currentJobTimeRanges := st.currentJobTimeRanges.eraseIdx index }

/-- The method `Array.prototype.findIndex`; `none` is `-1`. -/
def findIndex {α : Type} (p : α → Bool) : List α → Option Nat
  | [] => none
  | a :: l => if p a then some 0 else (findIndex p l).map (· + 1)

/-- The function `handleAddJobDefinition`; `codeValue` is the value of the input `job-code`.
The runtime's `String.prototype.toUpperCase` and `String.prototype.localeCompare` are
parameters. The call `sort` with the comparison function is the stable sort that puts `a`
before `b` when the comparison of `a` with `b` is not positive. -/
def handleAddJobDefinition (toUpperCase : JsString → JsString)
    (localeCompare : JsString → JsString → Int) (st : JobStore) (codeValue : JsString) :
    JobStore :=
  let code := toUpperCase (jsTrim codeValue)
  if code.isEmpty then st
  else if st.currentJobTimeRanges.length = 0 then st
  else
    let updated : List JobDefinition :=
      match findIndex (fun job => job.code == code) st.allJobDefinitions with
      | some existingJobIndex =>
        match st.allJobDefinitions[existingJobIndex]? with
        | some job =>
          let existingTimes := job.times
          let newTimes := st.currentJobTimeRanges.filter fun t => !existingTimes.contains t
          st.allJobDefinitions.set existingJobIndex
            { code := job.code, times := jsSort (existingTimes ++ newTimes) }
        | none => st.allJobDefinitions
      | none => st.allJobDefinitions ++ [{ code := code, times := st.currentJobTimeRanges }]
    { currentJobTimeRanges := [],
      allJobDefinitions :=
        updated.insertionSort fun a b => localeCompare a.code b.code ≤ 0 }

/-- The function `handleClearJobs`; `confirmed` is the answer to the confirmation dialog. -/
def handleClearJobs (st : JobStore) (confirmed : Bool) : JobStore :=
  if confirmed then { st with allJobDefinitions := [] } else st

/-- The user actions that change the store. -/
inductive JobEvent where
  | addJobTime (start endValue : JsString)
  | deleteJobTime (index : Nat)
  | addJobDefinition (codeValue : JsString)
  | clearJobs (confirmed : Bool)
  deriving DecidableEq

/-- The handler run for one user action. -/
def handleEvent (toUpperCase : JsString → JsString)
    (localeCompare : JsString → JsString → Int) (st : JobStore) : JobEvent → JobStore
  | .addJobTime start endValue => handleAddJobTime st start endValue
  | .deleteJobTime index => handleDeleteJobTime st index
  | .addJobDefinition codeValue => handleAddJobDefinition toUpperCase localeCompare st codeValue
  | .clearJobs confirmed => handleClearJobs st confirmed

/-- The store after a sequence of user actions on the freshly loaded page. -/
def runEvents (toUpperCase : JsString → JsString)
    (localeCompare : JsString → JsString → Int) (events : List JobEvent) : JobStore :=
  events.foldl (handleEvent toUpperCase localeCompare) initialStore

/-- Upper-casing of the ASCII letters, other characters unchanged: the restriction of
`toUpperCase` to ASCII strings, used to evaluate examples. -/
def asciiUpperCase (s : JsString) : JsString :=
  s.map fun c => if 97 ≤ c.toNat ∧ c.toNat ≤ 122 then Char.ofNat (c.toNat - 32) else c

/-- Comparison of strings by code units, used to evaluate examples. -/
def codeUnitCompare (a b : JsString) : Int :=
  if a < b then -1 else if b < a then 1 else 0

/-- The property of the store that every handler keeps: the pending ranges are sorted and
distinct, the job codes are distinct, and every job has a non-empty code that is the upper case
of a trimmed string and a non-empty, distinct, sorted list of ranges. -/
def StoreInvariant (toUpperCase : JsString → JsString) (st : JobStore) : Prop :=
  st.currentJobTimeRanges.Sorted (fun a b => a ≤ b) ∧ st.currentJobTimeRanges.Nodup ∧
    (st.allJobDefinitions.map JobDefinition.code).Nodup ∧
    ∀ job ∈ st.allJobDefinitions,
      job.code ≠ [] ∧ (∃ v, job.code = toUpperCase (jsTrim v)) ∧ job.times ≠ [] ∧
        job.times.Nodup ∧ job.times.Sorted (fun a b => a ≤ b)

end ShiftScheduler

namespace ShiftScheduler

/-! ## Characters -/

theorem isDigit_iff (c : Char) : c.isDigit = true ↔ 48 ≤ c.toNat ∧ c.toNat ≤ 57 := by
  simp only [Char.isDigit, Bool.and_eq_true, decide_eq_true_eq, Char.toNat, ge_iff_le,
    UInt32.le_def, Fin.le_def]
  rfl

theorem toNat_ne_of_ne {c d : Char} (h : c.toNat ≠ d.toNat) : c ≠ d := by
  intro e; exact h (by rw [e])

theorem isDigit_not_whiteSpace {c : Char} (h : c.isDigit = true) : isJsWhiteSpace c = false := by
  rw [isDigit_iff] at h
  simp only [isJsWhiteSpace, Bool.or_eq_false_iff, Bool.and_eq_false_imp, beq_eq_false_iff_ne,
    ne_eq, decide_eq_true_eq, decide_eq_false_iff_not]
  omega

theorem isDigit_ne_colon {c : Char} (h : c.isDigit = true) : c ≠ ':' := by
  rw [isDigit_iff] at h
  apply toNat_ne_of_ne
  have : (':' : Char).toNat = 58 := rfl
  omega

/-! ## Splitting, trimming and reading digits -/

theorem jsSplit_ne_nil (sep : Char) (s : JsString) : jsSplit sep s ≠ [] := by
  induction s with
  | nil => simp [jsSplit]
  | cons c cs ih =>
    unfold jsSplit
    split
    · simp
    · split <;> simp

theorem jsSplit_of_not_mem (sep : Char) (s : JsString) (h : ∀ c ∈ s, c ≠ sep) :
    jsSplit sep s = [s] := by
  induction s with
  | nil => rfl
  | cons c cs ih =>
    have hc : c ≠ sep := h c (List.mem_cons_self _ _)
    have hcs : ∀ d ∈ cs, d ≠ sep := fun d hd => h d (List.mem_cons_of_mem _ hd)
    simp [jsSplit, hc, ih hcs]

theorem jsSplit_append_sep (sep : Char) (a b : JsString) (h : ∀ c ∈ a, c ≠ sep) :
    jsSplit sep (a ++ sep :: b) = a :: jsSplit sep b := by
  induction a with
  | nil => simp [jsSplit]
  | cons c cs ih =>
    have hc : c ≠ sep := h c (List.mem_cons_self _ _)
    have hcs : ∀ d ∈ cs, d ≠ sep := fun d hd => h d (List.mem_cons_of_mem _ hd)
    simp [jsSplit, hc, ih hcs]

theorem dropWhile_of_all_false {p : Char → Bool} (s : JsString) (h : ∀ c ∈ s, p c = false) :
    s.dropWhile p = s := by
  cases s with
  | nil => rfl
  | cons c cs => simp [List.dropWhile, h c (List.mem_cons_self _ _)]

theorem jsTrim_of_no_whiteSpace (s : JsString) (h : ∀ c ∈ s, isJsWhiteSpace c = false) :
    jsTrim s = s := by
  unfold jsTrim
  rw [dropWhile_of_all_false s h, dropWhile_of_all_false s.reverse]
  · simp
  · intro c hc
    exact h c (List.mem_reverse.mp hc)

theorem takeWhile_of_all_true {p : Char → Bool} (s : JsString) (h : ∀ c ∈ s, p c = true) :
    s.takeWhile p = s := by
  induction s with
  | nil => rfl
  | cons c cs ih =>
    simp [List.takeWhile, h c (List.mem_cons_self _ _),
      ih (fun d hd => h d (List.mem_cons_of_mem _ hd))]

theorem jsParseInt10_digits (z : JsString) (hne : z ≠ []) (hz : ∀ c ∈ z, c.isDigit = true) :
    jsParseInt10 z = some (digitsValue z : Int) := by
  obtain ⟨c, cs, rfl⟩ := List.exists_cons_of_ne_nil hne
  have hc : c.isDigit = true := hz c (List.mem_cons_self _ _)
  have hws : isJsWhiteSpace c = false := isDigit_not_whiteSpace hc
  have h1 : c ≠ '-' := by
    rw [isDigit_iff] at hc
    apply toNat_ne_of_ne
    have : ('-' : Char).toNat = 45 := rfl
    omega
  have h2 : c ≠ '+' := by
    rw [isDigit_iff] at hc
    apply toNat_ne_of_ne
    have : ('+' : Char).toNat = 43 := rfl
    omega
  have ht : (c :: cs).takeWhile Char.isDigit = c :: cs := takeWhile_of_all_true _ hz
  have b1 : (some c == some '-') = false := by simp [h1]
  have b2 : (some c == some '+') = false := by simp [h2]
  simp only [jsParseInt10, List.dropWhile, hws, List.head?_cons, b1, b2, Bool.or_self,
    Bool.false_eq_true, if_false, ht, List.isEmpty_cons]

theorem jsTimeToSlot_digits (hs ms : JsString) (hhs : hs ≠ []) (hms : ms ≠ [])
    (dh : ∀ c ∈ hs, c.isDigit = true) (dm : ∀ c ∈ ms, c.isDigit = true) :
    jsTimeToSlot (hs ++ ':' :: ms) =
      if digitsValue ms ≤ 59 then some (digitsValue hs * 2 + digitsValue ms / 30) else none := by
  have e1 : jsSplit ':' (hs ++ ':' :: ms) = [hs, ms] := by
    rw [jsSplit_append_sep ':' hs ms (fun c hc => isDigit_ne_colon (dh c hc)),
      jsSplit_of_not_mem ':' ms (fun c hc => isDigit_ne_colon (dm c hc))]
  have e2 : (hs ++ ':' :: ms).isEmpty = false := by
    cases hs <;> rfl
  simp only [jsTimeToSlot, e1, e2, Bool.false_eq_true, if_false, jsParseInt10_digits hs hhs dh,
    jsParseInt10_digits ms hms dm]
  by_cases h : digitsValue ms ≤ 59
  · have h3 : ¬ ((digitsValue ms : Int) < 0 ∨ (digitsValue ms : Int) > 59 ∨
        (digitsValue hs : Int) < 0) := by omega
    simp [h, h3]
  · have h3 : ((digitsValue ms : Int) < 0 ∨ (digitsValue ms : Int) > 59 ∨
        (digitsValue hs : Int) < 0) := by omega
    simp [h, h3]

theorem validTimeFormat_shape (hs ms : JsString)
    (hv : isValidTimeFormat (hs ++ ':' :: ms) = true) :
    (hs.length = 1 ∨ hs.length = 2) ∧ ms.length = 2 ∧
      (∀ c ∈ hs, c.isDigit = true) ∧ (∀ c ∈ ms, c.isDigit = true) := by
  have hcolon : (':' : Char).isDigit = false := by decide
  unfold isValidTimeFormat at hv
  split at hv
  · rename_i a c m1 m0 heq
    simp only [Bool.and_eq_true, beq_iff_eq] at hv
    obtain ⟨⟨⟨ha, hc⟩, h1⟩, h0⟩ := hv
    rcases hs with _ | ⟨x, _ | ⟨y, _ | ⟨z, _ | ⟨w, hs⟩⟩⟩⟩ <;> simp at heq
    · rw [← heq.1, hcolon] at ha; simp at ha
    · obtain ⟨rfl, rfl, rfl⟩ := heq
      simp [ha, h1, h0]
    · rw [← heq.2.2.1, hcolon] at h1; simp at h1
    · rw [← heq.2.2.2.1, hcolon] at h0; simp at h0
  · rename_i a b c m1 m0 heq
    simp only [Bool.and_eq_true, beq_iff_eq] at hv
    obtain ⟨⟨⟨⟨ha, hb⟩, hc⟩, h1⟩, h0⟩ := hv
    rcases hs with _ | ⟨x, _ | ⟨y, _ | ⟨z, _ | ⟨w, _ | ⟨v, hs⟩⟩⟩⟩⟩ <;> simp at heq
    · rw [← heq.1, hcolon] at ha; simp at ha
    · rw [← heq.2.1, hcolon] at hb; simp at hb
    · obtain ⟨rfl, rfl, rfl, rfl⟩ := heq
      simp [ha, hb, h1, h0]
    · rw [← heq.2.2.2.1, hcolon] at h1; simp at h1
    · rw [← heq.2.2.2.2.1, hcolon] at h0; simp at h0
  · simp at hv

theorem validTime_chars (hs ms : JsString)
    (hv : isValidTimeFormat (hs ++ ':' :: ms) = true) :
    ∀ c ∈ hs ++ ':' :: ms, c ≠ enDash ∧ c ≠ '-' ∧ isJsWhiteSpace c = false := by
  obtain ⟨_, _, dh, dm⟩ := validTimeFormat_shape hs ms hv
  have key : ∀ c : Char, c.isDigit = true ∨ c = ':' →
      c ≠ enDash ∧ c ≠ '-' ∧ isJsWhiteSpace c = false := by
    intro c hc
    rcases hc with hc | rfl
    · refine ⟨?_, ?_, isDigit_not_whiteSpace hc⟩
      · rw [isDigit_iff] at hc
        apply toNat_ne_of_ne
        have : enDash.toNat = 8211 := rfl
        omega
      · rw [isDigit_iff] at hc
        apply toNat_ne_of_ne
        have : ('-' : Char).toNat = 45 := rfl
        omega
    · decide
  intro c hc
  rw [List.mem_append, List.mem_cons] at hc
  rcases hc with hc | hc | hc
  · exact key c (Or.inl (dh c hc))
  · exact key c (Or.inr hc)
  · exact key c (Or.inl (dm c hc))

theorem jsTimeToSlot_of_valid (hs ms : JsString)
    (hv : isValidTimeFormat (hs ++ ':' :: ms) = true) :
    jsTimeToSlot (hs ++ ':' :: ms) =
      if digitsValue ms ≤ 59 then some (digitsValue hs * 2 + digitsValue ms / 30) else none := by
  obtain ⟨hl, ml, dh, dm⟩ := validTimeFormat_shape hs ms hv
  apply jsTimeToSlot_digits hs ms _ _ dh dm
  · rintro rfl
    simp at hl
  · rintro rfl
    simp at ml

theorem jsParseTimeRange_eq (s : JsString) (sep : Char)
    (hsep : sep = if enDash ∈ s then enDash else '-') (hmem : sep ∈ s) :
    jsParseTimeRange s =
      match jsSplit sep s with
      | [p0, p1] =>
        match jsTimeToSlot (jsTrim p0), jsTimeToSlot (jsTrim p1) with
        | some a, some b => (some a, some b)
        | _, _ => (none, none)
      | _ => (none, none) := by
  have hne : s.isEmpty = false := by
    cases s with
    | nil => simp at hmem
    | cons c cs => rfl
  by_cases hd : enDash ∈ s
  · rw [if_pos hd] at hsep
    subst hsep
    have hi : jsIncludes s enDash = true := by simp [jsIncludes, hd]
    simp only [jsParseTimeRange, hne, hi, if_true, Bool.false_eq_true, if_false]
    rcases jsSplit enDash s with _ | ⟨p0, _ | ⟨p1, _ | ⟨p2, ps⟩⟩⟩ <;> rfl
  · rw [if_neg hd] at hsep
    subst hsep
    have hi : jsIncludes s enDash = false := by simp [jsIncludes, hd]
    have hj : jsIncludes s '-' = true := by simp [jsIncludes, hmem]
    simp only [jsParseTimeRange, hne, hi, hj, if_true, Bool.false_eq_true, if_false]
    rcases jsSplit '-' s with _ | ⟨p0, _ | ⟨p1, _ | ⟨p2, ps⟩⟩⟩ <;> rfl

theorem jsParseTimeRange_of_split (s : JsString) (sep : Char) (p0 p1 : JsString)
    (hsep : sep = if enDash ∈ s then enDash else '-') (hmem : sep ∈ s)
    (hsplit : jsSplit sep s = [p0, p1]) :
    jsParseTimeRange s =
      match jsTimeToSlot (jsTrim p0), jsTimeToSlot (jsTrim p1) with
      | some a, some b => (some a, some b)
      | _, _ => (none, none) := by
  rw [jsParseTimeRange_eq s sep hsep hmem, hsplit]

theorem jsParseTimeRange_no_separator (s : JsString) (h1 : enDash ∉ s) (h2 : '-' ∉ s) :
    jsParseTimeRange s = (none, none) := by
  simp [jsParseTimeRange, jsIncludes, h1, h2]

/-! ## Decimal numerals -/

theorem digitChar_spec (d : Nat) (h : d < 10) :
    (Nat.digitChar d).isDigit = true ∧ (Nat.digitChar d).toNat - 48 = d ∧
      (Nat.digitChar d = '0' → d = 0) := by
  interval_cases d <;> decide

theorem digitsValue_append_singleton (z : JsString) (c : Char) :
    digitsValue (z ++ [c]) = digitsValue z * 10 + (c.toNat - 48) := by
  simp [digitsValue, List.foldl_append]

theorem digitsValue_replicate_zero_append (k : Nat) (z : JsString) :
    digitsValue (List.replicate k '0' ++ z) = digitsValue z := by
  induction k with
  | zero => rfl
  | succ k ih =>
    have e : digitsValue ('0' :: (List.replicate k '0' ++ z)) =
        digitsValue (List.replicate k '0' ++ z) := by
      simp [digitsValue]
    rw [List.replicate_succ, List.cons_append, e, ih]

theorem decimalDigits_spec (fuel : Nat) : ∀ n, n < fuel →
    decimalDigits fuel n ≠ [] ∧ (∀ c ∈ decimalDigits fuel n, c.isDigit = true) ∧
      digitsValue (decimalDigits fuel n) = n ∧
      (n < 10 → (decimalDigits fuel n).length = 1) ∧
      (10 ≤ n → n < 100 → (decimalDigits fuel n).length = 2) ∧
      (100 ≤ n → 3 ≤ (decimalDigits fuel n).length) ∧
      (0 < n → (decimalDigits fuel n).head? ≠ some '0') := by
  induction fuel with
  | zero => intro n h; omega
  | succ fuel ih =>
    intro n h
    by_cases h10 : n < 10
    · obtain ⟨d1, d2, d3⟩ := digitChar_spec n h10
      have e : decimalDigits (fuel + 1) n = [Nat.digitChar n] := by
        simp [decimalDigits, h10]
      rw [e]
      refine ⟨by simp, by simpa using d1, by simpa [digitsValue] using d2, by simp,
        by omega, by omega, ?_⟩
      intro hpos hz
      simp only [List.head?_cons, Option.some.injEq] at hz
      have := d3 hz
      omega
    · have e : decimalDigits (fuel + 1) n =
          decimalDigits fuel (n / 10) ++ [Nat.digitChar (n % 10)] := by
        simp [decimalDigits, h10]
      obtain ⟨i1, i2, i3, i4, i5, i6, i7⟩ := ih (n / 10) (by omega)
      obtain ⟨d1, d2, _⟩ := digitChar_spec (n % 10) (by omega)
      rw [e]
      refine ⟨by simp, ?_, ?_, by omega, ?_, ?_, ?_⟩
      · intro c hc
        rw [List.mem_append, List.mem_singleton] at hc
        rcases hc with hc | rfl
        · exact i2 c hc
        · exact d1
      · rw [digitsValue_append_singleton, i3, d2]
        omega
      · intro _ h100
        rw [List.length_append, i4 (by omega)]
        rfl
      · intro h100
        rw [List.length_append, List.length_singleton]
        by_cases h1000 : n < 1000
        · rw [i5 (by omega) (by omega)]
        · have := i6 (by omega)
          omega
      · intro _
        have hpos : 0 < n / 10 := by omega
        have := i7 hpos
        cases hd : decimalDigits fuel (n / 10) with
        | nil => exact absurd hd i1
        | cons c cs =>
          rw [hd] at this
          simpa using this

theorem jsNumberToString_spec (n : Nat) :
    jsNumberToString n ≠ [] ∧ (∀ c ∈ jsNumberToString n, c.isDigit = true) ∧
      digitsValue (jsNumberToString n) = n ∧
      (n < 10 → (jsNumberToString n).length = 1) ∧
      (10 ≤ n → n < 100 → (jsNumberToString n).length = 2) ∧
      (100 ≤ n → 3 ≤ (jsNumberToString n).length) ∧
      (0 < n → (jsNumberToString n).head? ≠ some '0') :=
  decimalDigits_spec (n + 1) n (Nat.lt_succ_self n)

theorem padStart2_spec (n : Nat) :
    padStart2 (jsNumberToString n) ≠ [] ∧
      (∀ c ∈ padStart2 (jsNumberToString n), c.isDigit = true) ∧
      digitsValue (padStart2 (jsNumberToString n)) = n ∧
      (n < 100 → (padStart2 (jsNumberToString n)).length = 2) ∧
      (100 ≤ n → padStart2 (jsNumberToString n) = jsNumberToString n) := by
  obtain ⟨s1, s2, s3, s4, s5, s6, _⟩ := jsNumberToString_spec n
  refine ⟨?_, ?_, ?_, ?_, ?_⟩
  · simp [padStart2, s1]
  · intro c hc
    simp only [padStart2, List.mem_append, List.mem_replicate] at hc
    rcases hc with ⟨_, rfl⟩ | hc
    · decide
    · exact s2 c hc
  · rw [padStart2, digitsValue_replicate_zero_append, s3]
  · intro h
    by_cases h10 : n < 10
    · simp [padStart2, s4 h10]
    · simp [padStart2, s5 (by omega) h]
  · intro h
    have := s6 h
    have e : 2 - (jsNumberToString n).length = 0 := by omega
    simp [padStart2, e]

theorem jsSlotToTimeStr_natCast (n : Nat) : jsSlotToTimeStr (n : ℚ) = slotToTimeStr n := by
  have h1 : ¬ ((n : ℚ) < 0) := not_lt.mpr (Nat.cast_nonneg n)
  simp [jsSlotToTimeStr, h1, Rat.isInt]

theorem jsTimeToSlot_slotToTimeStr (n : Nat) : jsTimeToSlot (slotToTimeStr n) = some n := by
  obtain ⟨a1, a2, a3, _, _⟩ := padStart2_spec (n / 2)
  obtain ⟨b1, b2, b3, _, _⟩ := padStart2_spec (n % 2 * 30)
  unfold slotToTimeStr
  simp only []
  rw [jsTimeToSlot_digits _ _ a1 b1 a2 b2, a3, b3, if_pos (by omega)]
  congr 1
  omega

/-! ## The three outcomes of `formatGridAsTable` -/

theorem formatGridAsTable_no_grid (kValue : JsString) (unfilledSlots : Option (List UnfilledSlot))
    (period status : JsString) (h1 : status ≠ "OPTIMAL".toList) (h2 : status ≠ "FEASIBLE".toList) :
    formatGridAsTable kValue none unfilledSlots period status = .markup noGridMarkup := by
  unfold formatGridAsTable
  rw [if_pos ⟨rfl, h1, h2⟩]

theorem formatGridAsTable_bad_period (kValue : JsString) (gridData : Option GridData)
    (unfilledSlots : Option (List UnfilledSlot)) (period status : JsString)
    (hgo : ¬ (gridData.isNone ∧ status ≠ "OPTIMAL".toList ∧ status ≠ "FEASIBLE".toList))
    (hbad : ∀ s e, jsParseTimeRange period = (some s, some e) → e ≤ s) :
    formatGridAsTable kValue gridData unfilledSlots period status = .markup badPeriodMarkup := by
  unfold formatGridAsTable
  rw [if_neg hgo]
  rcases hp : jsParseTimeRange period with ⟨_ | s, _ | e⟩
  · rfl
  · rfl
  · rfl
  · have := hbad s e hp
    simp [this]

theorem formatGridAsTable_table (kValue : JsString) (gridData : Option GridData)
    (unfilledSlots : Option (List UnfilledSlot)) (period status : JsString) (s e : Nat)
    (hgo : ¬ (gridData.isNone ∧ status ≠ "OPTIMAL".toList ∧ status ≠ "FEASIBLE".toList))
    (hp : jsParseTimeRange period = (some s, some e)) (hse : s < e) :
    formatGridAsTable kValue gridData unfilledSlots period status =
      .table
        { className := "schedule-grid-table".toList,
          headerCells := "員工".toList :: (List.range (e - s)).map fun i => timeHeader (i + s),
          bodyRows :=
            (List.range (kFromInput kValue gridData).toNat).map (employeeRow gridData (e - s)) ++
              [shortageRow unfilledSlots s (e - s)] } := by
  unfold formatGridAsTable
  rw [if_neg hgo, hp]
  have h1 : ¬ e ≤ s := by omega
  have h2 : ¬ e - s ≤ 0 := by omega
  simp only [h1, h2, if_false]

theorem timeHeader_eq (n : Nat) :
    timeHeader n = (slotToTimeStr n).filter (fun c => c != ':') := by
  obtain ⟨_, a2, _⟩ := padStart2_spec (n / 2)
  obtain ⟨_, b2, _⟩ := padStart2_spec (n % 2 * 30)
  have keep : ∀ z : JsString, (∀ c ∈ z, c.isDigit = true) →
      z.filter (fun c => c != ':') = z := by
    intro z hz
    rw [List.filter_eq_self]
    intro c hc
    simpa using isDigit_ne_colon (hz c hc)
  unfold timeHeader slotToTimeStr
  simp only [List.filter_append, List.filter_cons, bne_self_eq_false, Bool.false_eq_true,
    if_false, keep _ a2, keep _ b2]

/-! ## Rows and cells -/

theorem taskCell_nil :
    taskCell [] = { textContent := [], className := "task-empty".toList, title := [] } := by
  decide

theorem employeeRow_cells_length (gridData : Option GridData) (numSlots empIdx : Nat) :
    (employeeRow gridData numSlots empIdx).cells.tail.length = numSlots := by
  simp [employeeRow]

theorem employeeRow_missing (gridData : Option GridData) (numSlots empIdx : Nat)
    (h : (gridData.bind fun g => g.lookup ('K' :: jsNumberToString (empIdx + 1))) = none) :
    (employeeRow gridData numSlots empIdx).cells.tail =
      List.replicate numSlots
        { textContent := [], className := "task-empty".toList, title := [] } := by
  simp only [employeeRow, h, List.tail_cons]
  apply List.ext_getElem
  · simp
  · intro n h1 h2
    simp only [List.length_map, List.length_range] at h1
    simp only [List.getElem_map, List.getElem_range, List.getElem_replicate]
    have e : (List.replicate numSlots ([] : JsString)).getD n [] = [] := by
      simp [List.getD_eq_getElem?_getD, List.getElem?_replicate, h1]
    rw [e, taskCell_nil]

theorem employeeRow_cell (gridData : Option GridData) (numSlots empIdx i : Nat)
    (labels : List JsString)
    (h : (gridData.bind fun g => g.lookup ('K' :: jsNumberToString (empIdx + 1))) = some labels)
    (hi : i < numSlots) :
    (employeeRow gridData numSlots empIdx).cells.tail[i]? = some (taskCell (labels.getD i [])) := by
  simp [employeeRow, h, List.getElem?_range hi]

theorem jsTrim_ne_nil_iff (s : JsString) :
    jsTrim s ≠ [] ↔ ∃ c ∈ s, isJsWhiteSpace c = false := by
  unfold jsTrim
  constructor
  · intro h
    by_contra hall
    push_neg at hall
    apply h
    have : s.dropWhile isJsWhiteSpace = [] := by
      rw [List.dropWhile_eq_nil_iff]
      intro c hc
      simpa using hall c hc
    rw [this]
    rfl
  · rintro ⟨c, hc, hws⟩ h
    rw [List.reverse_eq_nil_iff, List.dropWhile_eq_nil_iff] at h
    have hd : s.dropWhile isJsWhiteSpace ≠ [] := by
      rw [ne_eq, List.dropWhile_eq_nil_iff]
      intro hall
      rw [hall c hc] at hws
      cases hws
    obtain ⟨d, ds, hds⟩ := List.exists_cons_of_ne_nil hd
    have hdws : isJsWhiteSpace d = false := by
      have := List.head_dropWhile_not isJsWhiteSpace s hd
      simpa [hds] using this
    have hmem : d ∈ (s.dropWhile isJsWhiteSpace).reverse := by
      rw [List.mem_reverse, hds]
      exact List.mem_cons_self _ _
    rw [h d hmem] at hdws
    cases hdws

/-! ## Claims about the time-slot codec -/

/-- C1: for a string of the shape `H:MM` or `HH:MM` with hour digits `hs` and minute digits
`ms`, `jsTimeToSlot` returns hour * 2 + floor(minute / 30) when the minute is at most 59 and
`null` when it is 60 or more, whatever the hour; `"24:00"` gives 48. -/
theorem jsTimeToSlot_valid_format (hs ms : JsString)
    (hv : isValidTimeFormat (hs ++ ':' :: ms) = true) :
    (digitsValue ms ≤ 59 →
        jsTimeToSlot (hs ++ ':' :: ms) = some (digitsValue hs * 2 + digitsValue ms / 30)) ∧
      (60 ≤ digitsValue ms → jsTimeToSlot (hs ++ ':' :: ms) = none) ∧
      jsTimeToSlot "24:00".toList = some 48 := by
  rw [jsTimeToSlot_of_valid hs ms hv]
  refine ⟨fun h => by simp [h], fun h => ?_, by decide⟩
  have : ¬ digitsValue ms ≤ 59 := by omega
  simp [this]

/-- Witness of C1 at `"9:45"`, hour 9 and minute 45: slot 19. -/
theorem jsTimeToSlot_valid_format_witness :
    isValidTimeFormat (['9'] ++ ':' :: ['4', '5']) = true ∧
      jsTimeToSlot (['9'] ++ ':' :: ['4', '5']) = some 19 :=
  ⟨by decide, (jsTimeToSlot_valid_format ['9'] ['4', '5'] (by decide)).1 (by decide)⟩

/-- C2: for valid time strings `a` and `b` (shape `H:MM` or `HH:MM`, minute at most 59),
`jsParseTimeRange` of `a`, a separator and `b` is the pair of their slots, both present, for
the en-dash and for the hyphen, whether or not the end slot is greater than the start slot. -/
theorem jsParseTimeRange_valid_times (ha ma hb mb : JsString)
    (va : isValidTimeFormat (ha ++ ':' :: ma) = true)
    (vb : isValidTimeFormat (hb ++ ':' :: mb) = true)
    (hma : digitsValue ma ≤ 59) (hmb : digitsValue mb ≤ 59) :
    jsParseTimeRange ((ha ++ ':' :: ma) ++ enDash :: (hb ++ ':' :: mb)) =
        (jsTimeToSlot (ha ++ ':' :: ma), jsTimeToSlot (hb ++ ':' :: mb)) ∧
      jsParseTimeRange ((ha ++ ':' :: ma) ++ '-' :: (hb ++ ':' :: mb)) =
        (jsTimeToSlot (ha ++ ':' :: ma), jsTimeToSlot (hb ++ ':' :: mb)) ∧
      jsTimeToSlot (ha ++ ':' :: ma) = some (digitsValue ha * 2 + digitsValue ma / 30) ∧
      jsTimeToSlot (hb ++ ':' :: mb) = some (digitsValue hb * 2 + digitsValue mb / 30) ∧
      jsParseTimeRange "09:00–10:30".toList = (some 18, some 21) ∧
      jsParseTimeRange "09:00-10:30".toList = (some 18, some 21) ∧
      jsParseTimeRange "10:00–09:00".toList = (some 20, some 18) := by
  have ca := validTime_chars ha ma va
  have cb := validTime_chars hb mb vb
  have sa : jsTimeToSlot (ha ++ ':' :: ma) = some (digitsValue ha * 2 + digitsValue ma / 30) := by
    rw [jsTimeToSlot_of_valid ha ma va, if_pos hma]
  have sb : jsTimeToSlot (hb ++ ':' :: mb) = some (digitsValue hb * 2 + digitsValue mb / 30) := by
    rw [jsTimeToSlot_of_valid hb mb vb, if_pos hmb]
  have ta := jsTrim_of_no_whiteSpace _ (fun c hc => (ca c hc).2.2)
  have tb := jsTrim_of_no_whiteSpace _ (fun c hc => (cb c hc).2.2)
  refine ⟨?_, ?_, sa, sb, by decide, by decide, by decide⟩
  · rw [jsParseTimeRange_of_split _ enDash (ha ++ ':' :: ma) (hb ++ ':' :: mb) (by simp) (by simp)
      (by rw [jsSplit_append_sep _ _ _ (fun c hc => (ca c hc).1),
        jsSplit_of_not_mem _ _ (fun c hc => (cb c hc).1)]), ta, tb, sa, sb]
  · have hno : enDash ∉ (ha ++ ':' :: ma) ++ '-' :: (hb ++ ':' :: mb) := by
      intro hin
      rw [List.mem_append, List.mem_cons] at hin
      rcases hin with hin | hin | hin
      · exact (ca _ hin).1 rfl
      · exact absurd hin (by decide)
      · exact (cb _ hin).1 rfl
    rw [jsParseTimeRange_of_split _ '-' (ha ++ ':' :: ma) (hb ++ ':' :: mb) (by rw [if_neg hno])
      (by simp)
      (by rw [jsSplit_append_sep _ _ _ (fun c hc => (ca c hc).2.1),
        jsSplit_of_not_mem _ _ (fun c hc => (cb c hc).2.1)]), ta, tb, sa, sb]

/-- Witness of C2 at `"9:05"` and `"23:59"`. -/
theorem jsParseTimeRange_valid_times_witness :
    isValidTimeFormat (['9'] ++ ':' :: ['0', '5']) = true ∧
      isValidTimeFormat (['2', '3'] ++ ':' :: ['5', '9']) = true ∧
      digitsValue ['0', '5'] ≤ 59 ∧ digitsValue ['5', '9'] ≤ 59 ∧
      jsParseTimeRange ((['9'] ++ ':' :: ['0', '5']) ++ enDash :: (['2', '3'] ++ ':' :: ['5', '9'])) =
      (jsTimeToSlot (['9'] ++ ':' :: ['0', '5']), jsTimeToSlot (['2', '3'] ++ ':' :: ['5', '9'])) :=
  ⟨by decide, by decide, by decide, by decide,
    (jsParseTimeRange_valid_times ['9'] ['0', '5'] ['2', '3'] ['5', '9']
      (by decide) (by decide) (by decide) (by decide)).1⟩

/-- C3: `jsParseTimeRange` returns `[null, null]` when the string contains neither an
en-dash nor a hyphen, when splitting on the chosen separator (the en-dash if present, else the
hyphen) does not give exactly two segments, or when a trimmed segment fails `jsTimeToSlot`; in
every other case both entries are the slots of the two trimmed segments, so the result is
never half-null; `"garbage"` gives `[null, null]`. -/
theorem jsParseTimeRange_null_or_both (s : JsString) :
    let sep := if enDash ∈ s then enDash else '-'
    let fails := (enDash ∉ s ∧ '-' ∉ s) ∨ (jsSplit sep s).length ≠ 2 ∨
      ∃ p ∈ jsSplit sep s, jsTimeToSlot (jsTrim p) = none
    (fails → jsParseTimeRange s = (none, none)) ∧
      (¬ fails → ∃ p0 p1 a b, jsSplit sep s = [p0, p1] ∧ jsTimeToSlot (jsTrim p0) = some a ∧
        jsTimeToSlot (jsTrim p1) = some b ∧ jsParseTimeRange s = (some a, some b)) ∧
      ((jsParseTimeRange s).1 = none ↔ (jsParseTimeRange s).2 = none) ∧
      jsParseTimeRange "garbage".toList = (none, none) := by
  intro sep fails
  by_cases hmem : sep ∈ s
  · have hnot : ¬ (enDash ∉ s ∧ '-' ∉ s) := by
      rintro ⟨h1, h2⟩
      have : sep = '-' := if_neg h1
      rw [this] at hmem
      exact h2 hmem
    have heq := jsParseTimeRange_eq s sep rfl hmem
    rcases hsplit : jsSplit sep s with _ | ⟨p0, _ | ⟨p1, _ | ⟨p2, ps⟩⟩⟩
    · exact absurd hsplit (jsSplit_ne_nil sep s)
    · rw [hsplit] at heq
      have hf : fails := Or.inr (Or.inl (by rw [hsplit]; simp))
      have hr : jsParseTimeRange s = (none, none) := heq
      exact ⟨fun _ => hr, fun h => absurd hf h, by rw [hr], by decide⟩
    · replace heq := jsParseTimeRange_of_split s sep p0 p1 rfl hmem hsplit
      rcases h0 : jsTimeToSlot (jsTrim p0) with _ | a
      · have hr : jsParseTimeRange s = (none, none) := by rw [heq, h0]
        have hf : fails := Or.inr (Or.inr ⟨p0, by rw [hsplit]; simp, h0⟩)
        exact ⟨fun _ => hr, fun h => absurd hf h, by rw [hr], by decide⟩
      · rcases h1 : jsTimeToSlot (jsTrim p1) with _ | b
        · have hr : jsParseTimeRange s = (none, none) := by rw [heq, h0, h1]
          have hf : fails := Or.inr (Or.inr ⟨p1, by rw [hsplit]; simp, h1⟩)
          exact ⟨fun _ => hr, fun h => absurd hf h, by rw [hr], by decide⟩
        · have hr : jsParseTimeRange s = (some a, some b) := by rw [heq, h0, h1]
          have hnf : ¬ fails := by
            rintro (h | h | ⟨p, hp, hnone⟩)
            · exact hnot h
            · rw [hsplit] at h; exact h rfl
            · rw [hsplit] at hp
              simp only [List.mem_cons, List.mem_singleton, List.not_mem_nil, or_false] at hp
              rcases hp with rfl | rfl
              · rw [h0] at hnone; cases hnone
              · rw [h1] at hnone; cases hnone
          exact ⟨fun h => absurd h hnf, fun _ => ⟨p0, p1, a, b, rfl, h0, h1, hr⟩,
            by rw [hr]; simp, by decide⟩
    · rw [hsplit] at heq
      have hf : fails := Or.inr (Or.inl (by rw [hsplit]; simp))
      have hr : jsParseTimeRange s = (none, none) := heq
      exact ⟨fun _ => hr, fun h => absurd hf h, by rw [hr], by decide⟩
  · have h1 : enDash ∉ s := by
      intro h
      have : sep = enDash := if_pos h
      rw [this] at hmem
      exact hmem h
    have h2 : '-' ∉ s := by
      intro h
      have : sep = '-' := if_neg h1
      rw [this] at hmem
      exact hmem h
    have hr := jsParseTimeRange_no_separator s h1 h2
    have hf : fails := Or.inl ⟨h1, h2⟩
    exact ⟨fun _ => hr, fun h => absurd hf h, by rw [hr], by decide⟩

/-- C4, as stated, fails at slot 200: the result is `"100:00"`, whose hour field has three
digits, so it is not a five-character `HH:MM` string. -/
theorem jsSlotToTimeStr_200_not_two_digits :
    jsSlotToTimeStr (200 : ℚ) = "100:00".toList ∧
      ¬ ∃ a b c d : Char, jsSlotToTimeStr (200 : ℚ) = [a, b, ':', c, d] := by
  have h : jsSlotToTimeStr (200 : ℚ) = "100:00".toList := by decide
  refine ⟨h, ?_⟩
  rintro ⟨a, b, c, d, e⟩
  rw [h] at e
  simp at e

/-- C4 (amended): for every non-negative integer slot `n` below `2 ^ 53` (the integers that
the runtime holds and prints exactly), `jsSlotToTimeStr n` is an hour field, a colon and a
minute field; the minute field is `00` when `n` is even and `30` when `n` is odd; the hour field
is floor(n / 2) in decimal digits, zero-padded to exactly two digits when `n < 200` and written
in full, with three or more digits and no leading zero, when `n ≥ 200`. -/
theorem jsSlotToTimeStr_nat (n : Nat) (hn : n < 2 ^ 53) :
    n / 2 < 2 ^ 53 ∧
      ∃ hh : JsString,
        jsSlotToTimeStr (n : ℚ) = hh ++ ':' :: (if n % 2 = 0 then ['0', '0'] else ['3', '0']) ∧
          (∀ c ∈ hh, c.isDigit = true) ∧ digitsValue hh = n / 2 ∧
          (n < 200 → hh.length = 2) ∧ (200 ≤ n → 3 ≤ hh.length ∧ hh.head? ≠ some '0') := by
  obtain ⟨_, a2, a3, a4, a5⟩ := padStart2_spec (n / 2)
  obtain ⟨_, _, _, _, _, s6, s7⟩ := jsNumberToString_spec (n / 2)
  refine ⟨by omega, padStart2 (jsNumberToString (n / 2)), ?_, a2, a3, fun h => a4 (by omega),
    fun h => ?_⟩
  · rw [jsSlotToTimeStr_natCast, slotToTimeStr]
    rcases Nat.mod_two_eq_zero_or_one n with h | h <;> rw [h] <;> rfl
  · rw [a5 (by omega)]
    exact ⟨s6 (by omega), s7 (by omega)⟩

/-- Witness of C4 (amended) at slot 201, whose time string is `100:30`. -/
theorem jsSlotToTimeStr_nat_witness :
    201 < 2 ^ 53 ∧ jsSlotToTimeStr ((201 : Nat) : ℚ) = "100:30".toList ∧
      ∃ hh : JsString,
        jsSlotToTimeStr ((201 : Nat) : ℚ) =
            hh ++ ':' :: (if 201 % 2 = 0 then ['0', '0'] else ['3', '0']) ∧
          (∀ c ∈ hh, c.isDigit = true) ∧ digitsValue hh = 201 / 2 ∧
          (201 < 200 → hh.length = 2) ∧ (200 ≤ 201 → 3 ≤ hh.length ∧ hh.head? ≠ some '0') :=
  ⟨by norm_num, by decide, (jsSlotToTimeStr_nat 201 (by norm_num)).2⟩

/-- C5: for a valid time string (shape `H:MM` or `HH:MM`, minute at most 59), the slot is
defined and converting it to a time string and back gives the same slot. -/
theorem jsTimeToSlot_roundtrip (hs ms : JsString)
    (hv : isValidTimeFormat (hs ++ ':' :: ms) = true) (hm : digitsValue ms ≤ 59) :
    ∃ n : Nat, jsTimeToSlot (hs ++ ':' :: ms) = some n ∧
      jsTimeToSlot (jsSlotToTimeStr (n : ℚ)) = jsTimeToSlot (hs ++ ':' :: ms) := by
  refine ⟨digitsValue hs * 2 + digitsValue ms / 30, ?_, ?_⟩
  · rw [jsTimeToSlot_of_valid hs ms hv, if_pos hm]
  · rw [jsSlotToTimeStr_natCast, jsTimeToSlot_slotToTimeStr, jsTimeToSlot_of_valid hs ms hv,
      if_pos hm]

/-- Witness of C5 at `"9:45"`, which is not zero-padded and whose minute is not a multiple
of 30. -/
theorem jsTimeToSlot_roundtrip_witness :
    isValidTimeFormat (['9'] ++ ':' :: ['4', '5']) = true ∧ digitsValue ['4', '5'] ≤ 59 ∧
      ∃ n : Nat, jsTimeToSlot (['9'] ++ ':' :: ['4', '5']) = some n ∧
        jsTimeToSlot (jsSlotToTimeStr (n : ℚ)) = jsTimeToSlot (['9'] ++ ':' :: ['4', '5']) :=
  ⟨by decide, by decide, jsTimeToSlot_roundtrip ['9'] ['4', '5'] (by decide) (by decide)⟩

/-! ## Claims about grid compilation -/

/-- C6: when compilation does not short-circuit to the no-data result and the schedule period
fails `jsParseTimeRange` or parses to an end slot not after the start slot, the function
returns the error placeholder and not a table; a table that is returned always comes from a
period with end after start and has that positive number of time columns. The periods
`"10:00–09:00"` and `"09:00–09:00"` give the placeholder. -/
theorem formatGridAsTable_bad_period_placeholder (kValue : JsString)
    (gridData : Option GridData) (unfilledSlots : Option (List UnfilledSlot))
    (period status : JsString) :
    (¬ (gridData.isNone ∧ status ≠ "OPTIMAL".toList ∧ status ≠ "FEASIBLE".toList) →
        (∀ s e, jsParseTimeRange period = (some s, some e) → e ≤ s) →
        formatGridAsTable kValue gridData unfilledSlots period status = .markup badPeriodMarkup ∧
          ∀ t, formatGridAsTable kValue gridData unfilledSlots period status ≠ .table t) ∧
      (∀ t, formatGridAsTable kValue gridData unfilledSlots period status = .table t →
        ∃ s e, jsParseTimeRange period = (some s, some e) ∧ s < e ∧
          t.headerCells.tail.length = e - s ∧ 0 < t.headerCells.tail.length) ∧
      formatGridAsTable kValue gridData unfilledSlots "10:00–09:00".toList "OPTIMAL".toList =
        .markup badPeriodMarkup ∧
      formatGridAsTable kValue gridData unfilledSlots "09:00–09:00".toList "OPTIMAL".toList =
        .markup badPeriodMarkup := by
  refine ⟨fun hgo hbad => ?_, fun t ht => ?_, ?_, ?_⟩
  · have h := formatGridAsTable_bad_period kValue gridData unfilledSlots period status hgo hbad
    exact ⟨h, fun t ht => by rw [h] at ht; cases ht⟩
  · by_cases hgo : gridData.isNone ∧ status ≠ "OPTIMAL".toList ∧ status ≠ "FEASIBLE".toList
    · unfold formatGridAsTable at ht
      rw [if_pos hgo] at ht
      cases ht
    · by_cases hbad : ∀ s e, jsParseTimeRange period = (some s, some e) → e ≤ s
      · rw [formatGridAsTable_bad_period kValue gridData unfilledSlots period status hgo hbad] at ht
        cases ht
      · push_neg at hbad
        obtain ⟨s, e, hp, hse⟩ := hbad
        rw [formatGridAsTable_table kValue gridData unfilledSlots period status s e hgo hp hse] at ht
        cases ht
        refine ⟨s, e, hp, hse, by simp, ?_⟩
        simp only [List.tail_cons, List.length_map, List.length_range]
        omega
  · apply formatGridAsTable_bad_period
    · simp
    · intro s e hp
      have h : jsParseTimeRange "10:00–09:00".toList = (some 20, some 18) := by decide
      rw [h] at hp
      cases hp
      decide
  · apply formatGridAsTable_bad_period
    · simp
    · intro s e hp
      have h : jsParseTimeRange "09:00–09:00".toList = (some 18, some 18) := by decide
      rw [h] at hp
      cases hp
      decide

/-- C7: without a solution grid and with a status that is neither `OPTIMAL` nor `FEASIBLE`
the function returns the no-data markup, whatever the period and the unfilled slots, and no
table; with a solution grid, or with the status `OPTIMAL` or `FEASIBLE`, it does not return the
no-data markup. -/
theorem formatGridAsTable_no_data_iff (kValue : JsString) (gridData : Option GridData)
    (unfilledSlots : Option (List UnfilledSlot)) (period status : JsString) :
    formatGridAsTable kValue gridData unfilledSlots period status = .markup noGridMarkup ↔
      gridData = none ∧ status ≠ "OPTIMAL".toList ∧ status ≠ "FEASIBLE".toList := by
  constructor
  · intro h
    by_contra hgo
    have hgo2 : ¬ (gridData.isNone ∧ status ≠ "OPTIMAL".toList ∧ status ≠ "FEASIBLE".toList) := by
      simpa using hgo
    by_cases hbad : ∀ s e, jsParseTimeRange period = (some s, some e) → e ≤ s
    · rw [formatGridAsTable_bad_period kValue gridData unfilledSlots period status hgo2 hbad] at h
      exact absurd h (by decide)
    · push_neg at hbad
      obtain ⟨s, e, hp, hse⟩ := hbad
      rw [formatGridAsTable_table kValue gridData unfilledSlots period status s e hgo2 hp hse] at h
      cases h
  · rintro ⟨rfl, h1, h2⟩
    exact formatGridAsTable_no_grid kValue unfilledSlots period status h1 h2

/-- C8: for a period that parses to start slot `s` and end slot `e` with `e > s`, when
compilation does not short-circuit, the table is built, it has exactly `e - s` time columns
after the name column, and the header of column `i` is `jsSlotToTimeStr (s + i)` with the
colon removed. -/
theorem formatGridAsTable_header (kValue : JsString) (gridData : Option GridData)
    (unfilledSlots : Option (List UnfilledSlot)) (period status : JsString) (s e : Nat)
    (hgo : ¬ (gridData.isNone ∧ status ≠ "OPTIMAL".toList ∧ status ≠ "FEASIBLE".toList))
    (hp : jsParseTimeRange period = (some s, some e)) (hse : s < e) :
    ∃ t, formatGridAsTable kValue gridData unfilledSlots period status = .table t ∧
      t.headerCells.head? = some "員工".toList ∧
      t.headerCells.tail.length = e - s ∧
      ∀ i, i < e - s →
        t.headerCells.tail[i]? =
          some ((jsSlotToTimeStr ((s + i : Nat) : ℚ)).filter (fun c => c != ':')) := by
  refine ⟨_, formatGridAsTable_table kValue gridData unfilledSlots period status s e hgo hp hse,
    rfl, by simp, ?_⟩
  intro i hi
  simp only [List.tail_cons, List.getElem?_map, List.getElem?_range hi, Option.map_some',
    jsSlotToTimeStr_natCast, timeHeader_eq, Nat.add_comm]

/-- Witness of C8 at the period `"09:00–11:00"`, slots 18 to 22. -/
theorem formatGridAsTable_header_witness :
    jsParseTimeRange "09:00–11:00".toList = (some 18, some 22) ∧
      ∃ t, formatGridAsTable "2".toList none none "09:00–11:00".toList "OPTIMAL".toList =
          .table t ∧
        t.headerCells.head? = some "員工".toList ∧
        t.headerCells.tail.length = 22 - 18 ∧
        ∀ i, i < 22 - 18 →
          t.headerCells.tail[i]? =
            some ((jsSlotToTimeStr ((18 + i : Nat) : ℚ)).filter (fun c => c != ':')) :=
  ⟨by decide,
    formatGridAsTable_header "2".toList none none "09:00–11:00".toList "OPTIMAL".toList 18 22
      (by simp) (by decide) (by decide)⟩

/-- C9: for a valid period of `e - s` slots, when compilation does not short-circuit, the body
of the table is one row per employee index below the employee count, labelled `K1`, `K2`, ...
in that order, followed by exactly one shortage row; each of these rows has exactly `e - s`
slot cells after its name cell, whatever the keys of the solution grid, and an employee with no
entry in the solution grid has `e - s` empty-styled cells with empty text. For the period
`"09:00–11:00"`, one employee `K1` with labels `A`, `A`, `R`, `.` and no unfilled slots, the body
has two rows of four slot cells and every shortage cell is empty-styled. -/
theorem formatGridAsTable_body (kValue : JsString) (gridData : Option GridData)
    (unfilledSlots : Option (List UnfilledSlot)) (period status : JsString) (s e : Nat)
    (hgo : ¬ (gridData.isNone ∧ status ≠ "OPTIMAL".toList ∧ status ≠ "FEASIBLE".toList))
    (hp : jsParseTimeRange period = (some s, some e)) (hse : s < e) :
    (∃ t, formatGridAsTable kValue gridData unfilledSlots period status = .table t ∧
      t.bodyRows.length = (kFromInput kValue gridData).toNat + 1 ∧
      (∀ j, j < (kFromInput kValue gridData).toNat →
        ∃ r, t.bodyRows[j]? = some r ∧
          r.cells.head?.map Cell.textContent = some ('K' :: jsNumberToString (j + 1)) ∧
          r.cells.tail.length = e - s ∧
          ((gridData.bind fun g => g.lookup ('K' :: jsNumberToString (j + 1))) = none →
            r.cells.tail = List.replicate (e - s)
              { textContent := [], className := "task-empty".toList, title := [] })) ∧
      ∃ r, t.bodyRows[(kFromInput kValue gridData).toNat]? = some r ∧
        r.className = "sd-row".toList ∧
        r.cells.head?.map Cell.textContent = some "SD".toList ∧
        r.cells.tail.length = e - s) ∧
      ∃ t, formatGridAsTable "1".toList
            (some [("K1".toList, ["A".toList, "A".toList, "R".toList, ".".toList])])
            (some []) "09:00–11:00".toList "OPTIMAL".toList = .table t ∧
        t.bodyRows.length = 2 ∧ (∀ r ∈ t.bodyRows, r.cells.tail.length = 4) ∧
        ∀ r ∈ t.bodyRows.getLast?, ∀ c ∈ r.cells.tail,
          c = { textContent := [], className := "task-empty".toList, title := [] } := by
  constructor
  · refine ⟨_, formatGridAsTable_table kValue gridData unfilledSlots period status s e hgo hp hse,
      by simp, ?_, ?_⟩
    · intro j hj
      refine ⟨employeeRow gridData (e - s) j, ?_, rfl, employeeRow_cells_length _ _ _,
        employeeRow_missing _ _ _⟩
      rw [List.getElem?_append_left (by simpa using hj)]
      simp [List.getElem?_range hj]
    · refine ⟨shortageRow unfilledSlots s (e - s), ?_, rfl, rfl, by simp [shortageRow]⟩
      rw [List.getElem?_append_right (by simp)]
      simp
  · refine ⟨_, formatGridAsTable_table _ _ _ _ _ 18 22 (by simp) (by decide) (by decide), ?_⟩
    decide

/-- Witness of C9 at the period `"09:00–11:00"` with three configured employees, of whom only
`K2` has an entry in the solution grid. -/
theorem formatGridAsTable_body_witness :
    jsParseTimeRange "09:00–11:00".toList = (some 18, some 22) ∧
      ∃ t, formatGridAsTable "3".toList (some [("K2".toList, ["A".toList])]) none
          "09:00–11:00".toList "INFEASIBLE".toList = .table t ∧
        t.bodyRows.length =
          (kFromInput "3".toList (some [("K2".toList, ["A".toList])])).toNat + 1 :=
  ⟨by decide,
    let ⟨t, ht, hlen, _⟩ :=
      (formatGridAsTable_body "3".toList (some [("K2".toList, ["A".toList])]) none
        "09:00–11:00".toList "INFEASIBLE".toList 18 22 (by simp) (by decide) (by decide)).1
    ⟨t, ht, hlen⟩⟩

/-- C10: in the table, the cell of employee row `j` at slot column `i` for the label `task` of
the solution grid has the title `task`; for the empty label it has empty text and the class
`task-empty`; for `R` or `.` it has the text `.` and the class `task-rest`; for any other label
that is not blank it has the text `task` and the class `task-work task-code-` followed by
`task` lower-cased with every character outside `a`-`z`, `0`-`9` removed. -/
theorem formatGridAsTable_employee_cell (kValue : JsString) (gridData : Option GridData)
    (unfilledSlots : Option (List UnfilledSlot)) (period status : JsString) (s e j i : Nat)
    (labels : List JsString) (task : JsString)
    (hgo : ¬ (gridData.isNone ∧ status ≠ "OPTIMAL".toList ∧ status ≠ "FEASIBLE".toList))
    (hp : jsParseTimeRange period = (some s, some e)) (hse : s < e)
    (hj : j < (kFromInput kValue gridData).toNat) (hi : i < e - s)
    (hrow : (gridData.bind fun g => g.lookup ('K' :: jsNumberToString (j + 1))) = some labels)
    (hlabel : labels[i]? = some task) :
    ∃ t r c, formatGridAsTable kValue gridData unfilledSlots period status = .table t ∧
      t.bodyRows[j]? = some r ∧ r.cells.tail[i]? = some c ∧
      c.title = task ∧
      (task = [] → c.textContent = [] ∧ c.className = "task-empty".toList) ∧
      (task = ['R'] ∨ task = ['.'] → c.textContent = ['.'] ∧ c.className = "task-rest".toList) ∧
      (task ≠ ['R'] → task ≠ ['.'] → (∃ x ∈ task, isJsWhiteSpace x = false) →
        c.textContent = task ∧
          c.className =
            "task-work task-code-".toList ++ (jsToLowerCase task).filter isLowerAlphaNum) := by
  have hget : labels.getD i [] = task := by
    simp [List.getD_eq_getElem?_getD, hlabel]
  refine ⟨_, employeeRow gridData (e - s) j, taskCell task,
    formatGridAsTable_table kValue gridData unfilledSlots period status s e hgo hp hse, ?_, ?_,
    ?_, ?_, ?_, ?_⟩
  · rw [List.getElem?_append_left (by simpa using hj)]
    simp [List.getElem?_range hj]
  · rw [employeeRow_cell gridData (e - s) j i labels hrow hi, hget]
  · unfold taskCell
    split_ifs <;> rfl
  · rintro rfl
    exact ⟨rfl, rfl⟩
  · rintro (rfl | rfl) <;> exact ⟨rfl, rfl⟩
  · intro h1 h2 h3
    have h4 : jsTrim task ≠ [] := (jsTrim_ne_nil_iff task).mpr h3
    have h5 : task ≠ [] := by
      rintro rfl
      exact h4 rfl
    have h6 : ¬ (task = ['R'] ∨ task = ['.']) := by
      rintro (h | h)
      · exact h1 h
      · exact h2 h
    have h7 : ¬ task.isEmpty = true ∧ jsTrim task ≠ [] := ⟨by simpa using h5, h4⟩
    unfold taskCell
    rw [if_neg h6, if_pos h7]
    exact ⟨rfl, rfl⟩

/-- Witness of C10: the label `A-b 1` of `K1` at the first slot of `"09:00–11:00"`. -/
theorem formatGridAsTable_employee_cell_witness :
    ∃ t r c, formatGridAsTable "1".toList (some [("K1".toList, ["A-b 1".toList])]) none
        "09:00–11:00".toList "OPTIMAL".toList = .table t ∧
      t.bodyRows[0]? = some r ∧ r.cells.tail[0]? = some c ∧ c.title = "A-b 1".toList ∧
      c.textContent = "A-b 1".toList ∧ c.className = "task-work task-code-ab1".toList :=
  let ⟨t, r, c, ht, hr, hc, htitle, _, _, hwork⟩ :=
    formatGridAsTable_employee_cell "1".toList (some [("K1".toList, ["A-b 1".toList])]) none
      "09:00–11:00".toList "OPTIMAL".toList 18 22 0 0 ["A-b 1".toList] "A-b 1".toList
      (by simp) (by decide) (by decide) (by decide) (by decide) (by decide) (by decide)
  ⟨t, r, c, ht, hr, hc, htitle, (hwork (by decide) (by decide) ⟨'A', by decide, by decide⟩).1,
    (hwork (by decide) (by decide) ⟨'A', by decide, by decide⟩).2.trans (by decide)⟩

/-! ## Sorting and the shortage row -/

theorem jsSort_perm (l : List JsString) : (jsSort l).Perm l :=
  List.perm_insertionSort _ l

theorem jsSort_sorted (l : List JsString) : (jsSort l).Sorted (fun a b => a ≤ b) :=
  List.sorted_insertionSort _ l

theorem mem_jsSort (l : List JsString) (x : JsString) : x ∈ jsSort l ↔ x ∈ l :=
  (jsSort_perm l).mem_iff

theorem jsSort_nodup (l : List JsString) (h : l.Nodup) : (jsSort l).Nodup :=
  (jsSort_perm l).nodup_iff.mpr h

theorem jsSort_strict (l : List JsString) (h : l.Nodup) :
    (jsSort l).Sorted (fun a b => a < b) :=
  (jsSort_sorted l).lt_of_le (jsSort_nodup l h)

theorem sorted_unique (l₁ l₂ : List JsString) (h₁ : l₁.Sorted (fun a b => a < b))
    (h₂ : l₂.Sorted (fun a b => a < b)) (hmem : ∀ x, x ∈ l₁ ↔ x ∈ l₂) : l₁ = l₂ :=
  List.eq_of_perm_of_sorted ((List.perm_ext_iff_of_nodup h₁.nodup h₂.nodup).mpr hmem) h₁ h₂

theorem recordUnfilled_mem (acc : Nat → List JsString) (u : UnfilledSlot) (slot : Nat)
    (c : JsString) :
    c ∈ recordUnfilled acc u slot ↔
      c ∈ acc slot ∨ (jsTimeToSlot u.time_slot = some slot ∧ u.job_code = c) := by
  unfold recordUnfilled
  rcases h : jsTimeToSlot u.time_slot with _ | sl
  · simp
  · simp only [Option.some.injEq]
    by_cases hin : u.job_code ∈ acc sl
    · rw [if_pos hin]
      constructor
      · exact Or.inl
      · rintro (h1 | ⟨rfl, rfl⟩)
        · exact h1
        · exact hin
    · rw [if_neg hin]
      by_cases hs : slot = sl
      · subst hs
        rw [Function.update_same, List.mem_append, List.mem_singleton]
        constructor
        · rintro (h1 | rfl)
          · exact Or.inl h1
          · exact Or.inr ⟨rfl, rfl⟩
        · rintro (h1 | ⟨_, rfl⟩)
          · exact Or.inl h1
          · exact Or.inr rfl
      · rw [Function.update_noteq hs]
        constructor
        · exact Or.inl
        · rintro (h1 | ⟨rfl, _⟩)
          · exact h1
          · exact absurd rfl hs

theorem recordUnfilled_nodup (acc : Nat → List JsString) (u : UnfilledSlot)
    (h : ∀ slot, (acc slot).Nodup) : ∀ slot, (recordUnfilled acc u slot).Nodup := by
  intro slot
  unfold recordUnfilled
  rcases jsTimeToSlot u.time_slot with _ | sl
  · exact h slot
  · by_cases hin : u.job_code ∈ acc sl
    · simp only [if_pos hin]
      exact h slot
    · simp only [if_neg hin]
      by_cases hs : slot = sl
      · subst hs
        rw [Function.update_same]
        exact List.Nodup.append (h slot) (List.nodup_singleton _) (by simpa using hin)
      · rw [Function.update_noteq hs]
        exact h slot

theorem foldl_recordUnfilled_mem (records : List UnfilledSlot) :
    ∀ (acc : Nat → List JsString) (slot : Nat) (c : JsString),
      c ∈ records.foldl recordUnfilled acc slot ↔
        c ∈ acc slot ∨ ∃ u ∈ records, jsTimeToSlot u.time_slot = some slot ∧ u.job_code = c := by
  induction records with
  | nil => intro acc slot c; simp
  | cons u us ih =>
    intro acc slot c
    rw [List.foldl_cons, ih, recordUnfilled_mem]
    simp only [List.mem_cons, exists_eq_or_imp]
    tauto

theorem foldl_recordUnfilled_nodup (records : List UnfilledSlot) :
    ∀ acc : Nat → List JsString, (∀ slot, (acc slot).Nodup) →
      ∀ slot, (records.foldl recordUnfilled acc slot).Nodup := by
  induction records with
  | nil => intro acc h; exact h
  | cons u us ih =>
    intro acc h
    rw [List.foldl_cons]
    exact ih _ (recordUnfilled_nodup acc u h)

theorem unfilledJobsAtSlot_mem (unfilledSlots : Option (List UnfilledSlot)) (slot : Nat)
    (c : JsString) :
    c ∈ unfilledJobsAtSlot unfilledSlots slot ↔
      ∃ u ∈ unfilledSlots.getD [], jsTimeToSlot u.time_slot = some slot ∧ u.job_code = c := by
  unfold unfilledJobsAtSlot
  rw [foldl_recordUnfilled_mem]
  simp

theorem unfilledJobsAtSlot_nodup (unfilledSlots : Option (List UnfilledSlot)) (slot : Nat) :
    (unfilledJobsAtSlot unfilledSlots slot).Nodup :=
  foldl_recordUnfilled_nodup _ _ (fun _ => List.nodup_nil) slot

theorem shortage_codes_unique (unfilledSlots : Option (List UnfilledSlot)) (slot : Nat)
    (codes : List JsString) (hsorted : codes.Sorted (fun a b => a < b))
    (hmem : ∀ c, c ∈ codes ↔
      ∃ u ∈ unfilledSlots.getD [], jsTimeToSlot u.time_slot = some slot ∧ u.job_code = c) :
    codes = jsSort (unfilledJobsAtSlot unfilledSlots slot) := by
  apply sorted_unique _ _ hsorted (jsSort_strict _ (unfilledJobsAtSlot_nodup _ _))
  intro x
  rw [hmem, mem_jsSort, unfilledJobsAtSlot_mem]

theorem shortageCell_title (codes : List JsString) :
    (shortageCell codes).title = jsJoin (jsSort codes) := by
  unfold shortageCell
  cases codes with
  | nil => rfl
  | cons c cs => simp

theorem shortageRow_cell (unfilledSlots : Option (List UnfilledSlot)) (s numSlots i : Nat)
    (hi : i < numSlots) :
    (shortageRow unfilledSlots s numSlots).cells.tail[i]? =
      some (shortageCell (unfilledJobsAtSlot unfilledSlots (s + i))) := by
  simp [shortageRow, List.getElem?_range hi]

theorem formatGridAsTable_last_row (kValue : JsString) (gridData : Option GridData)
    (unfilledSlots : Option (List UnfilledSlot)) (period status : JsString) (s e : Nat)
    (hgo : ¬ (gridData.isNone ∧ status ≠ "OPTIMAL".toList ∧ status ≠ "FEASIBLE".toList))
    (hp : jsParseTimeRange period = (some s, some e)) (hse : s < e) :
    ∃ t, formatGridAsTable kValue gridData unfilledSlots period status = .table t ∧
      t.bodyRows.getLast? = some (shortageRow unfilledSlots s (e - s)) ∧
      t.bodyRows.dropLast =
        (List.range (kFromInput kValue gridData).toNat).map (employeeRow gridData (e - s)) :=
  ⟨_, formatGridAsTable_table kValue gridData unfilledSlots period status s e hgo hp hse,
    by simp, by simp⟩

/-! ## Claims about the shortage row -/

/-- C11: for a valid period starting at slot `s` and a column `i`, the title (tooltip) of the
shortage cell of column `i` is the comma-joined list, in strictly increasing lexicographic
order, of the distinct job codes of exactly those unfilled records whose `time_slot` converts
to slot `s + i`, whatever the order and multiplicity of the records; when there is no such
record the cell has empty text and the class `task-empty`. For the records `09:30, B` and
`09:30, A` the title of the `09:30` cell is `A,B`. -/
theorem formatGridAsTable_shortage_title (kValue : JsString) (gridData : Option GridData)
    (unfilledSlots : Option (List UnfilledSlot)) (period status : JsString) (s e i : Nat)
    (hgo : ¬ (gridData.isNone ∧ status ≠ "OPTIMAL".toList ∧ status ≠ "FEASIBLE".toList))
    (hp : jsParseTimeRange period = (some s, some e)) (hse : s < e) (hi : i < e - s) :
    (∃ t r c codes, formatGridAsTable kValue gridData unfilledSlots period status = .table t ∧
      t.bodyRows.getLast? = some r ∧ r.cells.tail[i]? = some c ∧
      codes.Sorted (fun a b => a < b) ∧
      (∀ code, code ∈ codes ↔
        ∃ u ∈ unfilledSlots.getD [], jsTimeToSlot u.time_slot = some (s + i) ∧
          u.job_code = code) ∧
      c.title = jsJoin codes ∧
      (codes = [] → c.textContent = [] ∧ c.className = "task-empty".toList)) ∧
      ∃ t r c, formatGridAsTable "1".toList none
            (some [{ time_slot := "09:30".toList, job_code := "B".toList },
              { time_slot := "09:30".toList, job_code := "A".toList }])
            "09:00–11:00".toList "FEASIBLE".toList = .table t ∧
        t.bodyRows.getLast? = some r ∧ r.cells.tail[1]? = some c ∧
        c.title = "A,B".toList := by
  constructor
  · obtain ⟨t, ht, hlast, _⟩ :=
      formatGridAsTable_last_row kValue gridData unfilledSlots period status s e hgo hp hse
    refine ⟨t, _, _, jsSort (unfilledJobsAtSlot unfilledSlots (s + i)), ht, hlast,
      shortageRow_cell unfilledSlots s (e - s) i hi,
      jsSort_strict _ (unfilledJobsAtSlot_nodup _ _), ?_, shortageCell_title _, ?_⟩
    · intro code
      rw [mem_jsSort, unfilledJobsAtSlot_mem]
    · intro hnil
      have hcodes : unfilledJobsAtSlot unfilledSlots (s + i) = [] := by
        have := (jsSort_perm (unfilledJobsAtSlot unfilledSlots (s + i))).symm
        rw [hnil] at this
        exact List.Perm.eq_nil this
      rw [hcodes]
      exact ⟨rfl, rfl⟩
  · obtain ⟨t, ht, hlast, _⟩ :=
      formatGridAsTable_last_row "1".toList none
        (some [{ time_slot := "09:30".toList, job_code := "B".toList },
          { time_slot := "09:30".toList, job_code := "A".toList }])
        "09:00–11:00".toList "FEASIBLE".toList 18 22 (by simp) (by decide) (by decide)
    refine ⟨t, _, _, ht, hlast, shortageRow_cell _ 18 (22 - 18) 1 (by decide), ?_⟩
    decide

/-- Witness of C11 at the period `"09:00–11:00"` and its second column, with the records
`9:45, C`, `09:30, A`, `09:30, C`. -/
theorem formatGridAsTable_shortage_title_witness :
    jsParseTimeRange "09:00–11:00".toList = (some 18, some 22) ∧
      ∃ t r c codes, formatGridAsTable "1".toList none
          (some [{ time_slot := "9:45".toList, job_code := "C".toList },
            { time_slot := "09:30".toList, job_code := "A".toList },
            { time_slot := "09:30".toList, job_code := "C".toList }])
          "09:00–11:00".toList "FEASIBLE".toList = .table t ∧
        t.bodyRows.getLast? = some r ∧ r.cells.tail[1]? = some c ∧
        codes.Sorted (fun a b => a < b) ∧ c.title = jsJoin codes :=
  ⟨by decide,
    let ⟨⟨t, r, c, codes, ht, hr, hc, hsorted, _, htitle, _⟩, _⟩ :=
      formatGridAsTable_shortage_title "1".toList none
        (some [{ time_slot := "9:45".toList, job_code := "C".toList },
          { time_slot := "09:30".toList, job_code := "A".toList },
          { time_slot := "09:30".toList, job_code := "C".toList }])
        "09:00–11:00".toList "FEASIBLE".toList 18 22 1 (by simp) (by decide) (by decide)
        (by decide)
    ⟨t, r, c, codes, ht, hr, hc, hsorted, htitle⟩⟩

/-- C12: for a valid period and a column `i` whose sorted list `codes` of distinct unfilled job
codes is not empty, with `j` the comma-joined text of `codes`: the shortage cell has the class
`task-unfilled` and the title `j`; its text is `j` when `j` has at most 4 characters, the first
3 characters of `j` followed by `+` when `j` has more than 4 characters and there is more than
one code, and the first 4 characters of `j` when `j` has more than 4 characters and there is
one code. For the codes `B`, `A` at one slot the text is `A,B`; with `C` added the text is
`A,B+` and the title is `A,B,C`. -/
theorem formatGridAsTable_shortage_text (kValue : JsString) (gridData : Option GridData)
    (unfilledSlots : Option (List UnfilledSlot)) (period status : JsString) (s e i : Nat)
    (codes : List JsString)
    (hgo : ¬ (gridData.isNone ∧ status ≠ "OPTIMAL".toList ∧ status ≠ "FEASIBLE".toList))
    (hp : jsParseTimeRange period = (some s, some e)) (hse : s < e) (hi : i < e - s)
    (hsorted : codes.Sorted (fun a b => a < b))
    (hmem : ∀ code, code ∈ codes ↔
      ∃ u ∈ unfilledSlots.getD [], jsTimeToSlot u.time_slot = some (s + i) ∧ u.job_code = code)
    (hne : codes ≠ []) :
    (∃ t r c, formatGridAsTable kValue gridData unfilledSlots period status = .table t ∧
      t.bodyRows.getLast? = some r ∧ r.cells.tail[i]? = some c ∧
      c.title = jsJoin codes ∧ c.className = "task-unfilled".toList ∧
      ((jsJoin codes).length ≤ 4 → c.textContent = jsJoin codes) ∧
      (4 < (jsJoin codes).length → 1 < codes.length →
        c.textContent = (jsJoin codes).take 3 ++ ['+']) ∧
      (4 < (jsJoin codes).length → codes.length = 1 →
        c.textContent = (jsJoin codes).take 4)) ∧
      (∃ t r c, formatGridAsTable "1".toList none
            (some [{ time_slot := "09:30".toList, job_code := "B".toList },
              { time_slot := "09:30".toList, job_code := "A".toList }])
            "09:00–11:00".toList "FEASIBLE".toList = .table t ∧
        t.bodyRows.getLast? = some r ∧ r.cells.tail[1]? = some c ∧
        c.textContent = "A,B".toList ∧ c.title = "A,B".toList) ∧
      ∃ t r c, formatGridAsTable "1".toList none
            (some [{ time_slot := "09:30".toList, job_code := "B".toList },
              { time_slot := "09:30".toList, job_code := "A".toList },
              { time_slot := "09:30".toList, job_code := "C".toList }])
            "09:00–11:00".toList "FEASIBLE".toList = .table t ∧
        t.bodyRows.getLast? = some r ∧ r.cells.tail[1]? = some c ∧
        c.textContent = "A,B+".toList ∧ c.title = "A,B,C".toList := by
  refine ⟨?_, ?_, ?_⟩
  · obtain ⟨t, ht, hlast, _⟩ :=
      formatGridAsTable_last_row kValue gridData unfilledSlots period status s e hgo hp hse
    have hcodes := shortage_codes_unique unfilledSlots (s + i) codes hsorted hmem
    have hlen : (unfilledJobsAtSlot unfilledSlots (s + i)).length > 0 := by
      rcases hu : unfilledJobsAtSlot unfilledSlots (s + i) with _ | ⟨x, xs⟩
      · rw [hu] at hcodes
        exact absurd hcodes hne
      · simp
    refine ⟨t, _, _, ht, hlast, shortageRow_cell unfilledSlots s (e - s) i hi, ?_, ?_, ?_, ?_, ?_⟩
    · rw [shortageCell_title, hcodes]
    · unfold shortageCell
      rw [if_pos hlen]
    · intro h4
      unfold shortageCell
      rw [if_pos hlen, ← hcodes]
      have h1 : ¬ ((jsJoin codes).length > 4 ∧ codes.length > 1) := by omega
      have h2 : ¬ (jsJoin codes).length > 4 := by omega
      simp only []
      rw [if_neg h1, if_neg h2]
    · intro h4 hk
      unfold shortageCell
      rw [if_pos hlen, ← hcodes]
      have h1 : (jsJoin codes).length > 4 ∧ codes.length > 1 := ⟨h4, hk⟩
      simp only []
      rw [if_pos h1]
    · intro h4 hk
      unfold shortageCell
      rw [if_pos hlen, ← hcodes]
      have h1 : ¬ ((jsJoin codes).length > 4 ∧ codes.length > 1) := by omega
      have h2 : (jsJoin codes).length > 4 := h4
      simp only []
      rw [if_neg h1, if_pos h2]
  · obtain ⟨t, ht, hlast, _⟩ :=
      formatGridAsTable_last_row "1".toList none
        (some [{ time_slot := "09:30".toList, job_code := "B".toList },
          { time_slot := "09:30".toList, job_code := "A".toList }])
        "09:00–11:00".toList "FEASIBLE".toList 18 22 (by simp) (by decide) (by decide)
    refine ⟨t, _, _, ht, hlast, shortageRow_cell _ 18 (22 - 18) 1 (by decide), ?_, ?_⟩ <;>
      decide
  · obtain ⟨t, ht, hlast, _⟩ :=
      formatGridAsTable_last_row "1".toList none
        (some [{ time_slot := "09:30".toList, job_code := "B".toList },
          { time_slot := "09:30".toList, job_code := "A".toList },
          { time_slot := "09:30".toList, job_code := "C".toList }])
        "09:00–11:00".toList "FEASIBLE".toList 18 22 (by simp) (by decide) (by decide)
    refine ⟨t, _, _, ht, hlast, shortageRow_cell _ 18 (22 - 18) 1 (by decide), ?_, ?_⟩ <;>
      decide

/-- Witness of C12: one long code `LONGER` at `10:00`, shown cut to its first four
characters. -/
theorem formatGridAsTable_shortage_text_witness :
    ∃ t r c, formatGridAsTable "1".toList none
        (some [{ time_slot := "10:00".toList, job_code := "LONGER".toList }])
        "09:00–11:00".toList "FEASIBLE".toList = .table t ∧
      t.bodyRows.getLast? = some r ∧ r.cells.tail[2]? = some c ∧
      c.title = "LONGER".toList ∧ c.textContent = "LONG".toList :=
  let ⟨⟨t, r, c, ht, hr, hc, htitle, _, _, _, hcut⟩, _⟩ :=
    formatGridAsTable_shortage_text "1".toList none
      (some [{ time_slot := "10:00".toList, job_code := "LONGER".toList }])
      "09:00–11:00".toList "FEASIBLE".toList 18 22 2 ["LONGER".toList]
      (by simp) (by decide) (by decide) (by decide) (by simp)
      (by
        intro code
        simp only [Option.getD_some, List.mem_singleton, exists_eq_left]
        constructor
        · intro h
          exact ⟨by decide, h.symm⟩
        · intro h
          exact h.2.symm)
      (by simp)
  ⟨t, r, c, ht, hr, hc, htitle, hcut (by decide) (by decide)⟩

/-! ## The sentinel of `jsSlotToTimeStr` -/

/-- C15: for every number that is negative or not an integer `jsSlotToTimeStr` returns the
sentinel `"??:??"`, and for every non-negative integer it returns a string different from the
sentinel; `-1` and `3.5` give the sentinel. -/
theorem jsSlotToTimeStr_sentinel :
    (∀ x : ℚ, (x < 0 ∨ ∀ z : ℤ, x ≠ (z : ℚ)) → jsSlotToTimeStr x = "??:??".toList) ∧
      (∀ n : Nat, jsSlotToTimeStr (n : ℚ) ≠ "??:??".toList) ∧
      jsSlotToTimeStr (-1 : ℚ) = "??:??".toList ∧
      jsSlotToTimeStr (7 / 2 : ℚ) = "??:??".toList := by
  have gen : ∀ x : ℚ, (x < 0 ∨ ∀ z : ℤ, x ≠ (z : ℚ)) → jsSlotToTimeStr x = "??:??".toList := by
    intro x hx
    have hguard : x < 0 ∨ ¬ x.isInt = true := by
      rcases hx with h | h
      · exact Or.inl h
      · refine Or.inr (fun hint => ?_)
        have hden : x.den = 1 := by simpa [Rat.isInt] using hint
        exact h x.num ((Rat.den_eq_one_iff x).mp hden).symm
    unfold jsSlotToTimeStr
    rw [if_pos hguard]
  refine ⟨gen, ?_, gen _ (Or.inl (by norm_num)), gen _ (Or.inr ?_)⟩
  · intro n h
    rw [jsSlotToTimeStr_natCast] at h
    obtain ⟨a1, a2, _⟩ := padStart2_spec (n / 2)
    obtain ⟨c, cs, hc⟩ := List.exists_cons_of_ne_nil a1
    have hd : c.isDigit = true := a2 c (by rw [hc]; exact List.mem_cons_self _ _)
    unfold slotToTimeStr at h
    simp only [hc, List.cons_append] at h
    have hq : c = '?' := by
      have := congrArg List.head? h
      simpa using this
    rw [hq] at hd
    exact absurd hd (by decide)
  · intro z hz
    have h2 : (7 : ℚ) = 2 * (z : ℚ) := by linarith
    have h3 : (7 : ℤ) = 2 * z := by exact_mod_cast h2
    omega

/-! ## The number of employee rows -/

theorem jsParseInt_digits (z : JsString) (hne : z ≠ []) (hz : ∀ c ∈ z, c.isDigit = true) :
    jsParseInt z = some (digitsValue z : Int) := by
  obtain ⟨c, cs, rfl⟩ := List.exists_cons_of_ne_nil hne
  have hc : c.isDigit = true := hz c (List.mem_cons_self _ _)
  have hws : isJsWhiteSpace c = false := isDigit_not_whiteSpace hc
  have h1 : c ≠ '-' := by
    rw [isDigit_iff] at hc
    apply toNat_ne_of_ne
    have : ('-' : Char).toNat = 45 := rfl
    omega
  have h2 : c ≠ '+' := by
    rw [isDigit_iff] at hc
    apply toNat_ne_of_ne
    have : ('+' : Char).toNat = 43 := rfl
    omega
  have ht : (c :: cs).takeWhile Char.isDigit = c :: cs := takeWhile_of_all_true _ hz
  have b1 : (some c == some '-') = false := by simp [h1]
  have b2 : (some c == some '+') = false := by simp [h2]
  have hx : ∀ x : Char, x.isDigit = false → ((c :: cs).take 2 == ['0', x]) = false := by
    intro x hx
    cases cs with
    | nil => simp
    | cons d ds =>
      have hd : d.isDigit = true := hz d (by simp)
      have hdx : d ≠ x := by
        rintro rfl
        rw [hd] at hx
        cases hx
      simp [hdx]
  have e1 := hx 'x' (by decide)
  have e2 := hx 'X' (by decide)
  simp only [jsParseInt, List.dropWhile, hws, List.head?_cons, b1, b2, Bool.or_self,
    Bool.false_eq_true, if_false, ht, List.isEmpty_cons, e1, e2]

theorem jsParseInt_jsNumberToString (n : Nat) :
    jsParseInt (jsNumberToString n) = some (n : Int) := by
  obtain ⟨s1, s2, s3, _⟩ := jsNumberToString_spec n
  rw [jsParseInt_digits _ s1 s2, s3]

theorem kFromInput_of_pos (kValue : JsString) (gridData : Option GridData) (n : Nat)
    (hn : 0 < n) (h : jsParseInt kValue = some (n : Int)) :
    (kFromInput kValue gridData).toNat = n := by
  have hne : (n : Int) ≠ 0 := by omega
  simp [kFromInput, h, hne]

theorem kFromInput_of_falsy (kValue : JsString) (gridData : Option GridData)
    (h : jsParseInt kValue = none ∨ jsParseInt kValue = some 0) :
    (kFromInput kValue gridData).toNat =
      (gridData.map fun g => (objectKeys g).length).getD 0 := by
  rcases h with h | h <;> cases gridData <;> simp [kFromInput, h]

/-- C16: at the configured value `-3` with a solution grid of one key the table that
`formatGridAsTable` builds has no employee row, where the claim gives the number of keys,
one: `parseInt` reads `-3`, which is not replaced by the number of keys, and the loop over the
employees does not run. -/
theorem formatGridAsTable_negative_count_no_rows :
    ∃ t, formatGridAsTable "-3".toList (some [("K1".toList, ["A".toList])]) none
        "09:00–09:30".toList "OPTIMAL".toList = .table t ∧
      t.bodyRows.dropLast = [] ∧
      (objectKeys [("K1".toList, ["A".toList])]).length = 1 := by
  obtain ⟨t, ht, _, hrows⟩ :=
    formatGridAsTable_last_row "-3".toList (some [("K1".toList, ["A".toList])]) none
      "09:00–09:30".toList "OPTIMAL".toList 18 19 (by simp) (by decide) (by decide)
  refine ⟨t, ht, ?_, by decide⟩
  rw [hrows]
  decide

/-- When the table is built, its body is the employee rows followed by the
shortage row, and the number of employee rows is `n` when `parseInt` reads a positive integer
`n` from the configured value, in particular when the value is the decimal numeral of a
positive integer `n`; when `parseInt` reads no number from the value (it is empty or does not
start with a numeral) or reads zero, it is the number of keys of the solution grid, which is
zero when there is no solution grid or it has no keys. -/
theorem formatGridAsTable_employee_row_count (kValue : JsString) (gridData : Option GridData)
    (unfilledSlots : Option (List UnfilledSlot)) (period status : JsString) (s e : Nat)
    (hgo : ¬ (gridData.isNone ∧ status ≠ "OPTIMAL".toList ∧ status ≠ "FEASIBLE".toList))
    (hp : jsParseTimeRange period = (some s, some e)) (hse : s < e) :
    ∃ t, formatGridAsTable kValue gridData unfilledSlots period status = .table t ∧
      (∃ sd, t.bodyRows = t.bodyRows.dropLast ++ [sd] ∧ sd.className = "sd-row".toList) ∧
      (∀ r ∈ t.bodyRows.dropLast, r.className ≠ "sd-row".toList) ∧
      (∀ n : Nat, 0 < n → jsParseInt kValue = some (n : Int) →
        t.bodyRows.dropLast.length = n) ∧
      (∀ n : Nat, 0 < n → kValue = jsNumberToString n → t.bodyRows.dropLast.length = n) ∧
      (jsParseInt kValue = none ∨ jsParseInt kValue = some 0 →
        t.bodyRows.dropLast.length =
          (gridData.map fun g => ((g.map Prod.fst).dedup).length).getD 0) ∧
      (kValue = [] → jsParseInt kValue = none) ∧
      (∀ c cs, kValue = c :: cs → c.isDigit = false → isJsWhiteSpace c = false → c ≠ '-' →
        c ≠ '+' → jsParseInt kValue = none) ∧
      (kValue = ['0'] → jsParseInt kValue = some 0) := by
  refine ⟨_, formatGridAsTable_table kValue gridData unfilledSlots period status s e hgo hp hse,
    ⟨shortageRow unfilledSlots s (e - s), by simp, rfl⟩, ?_, ?_, ?_, ?_, ?_, ?_, ?_⟩
  · intro r hr
    simp only [List.dropLast_concat, List.mem_map] at hr
    obtain ⟨j, _, rfl⟩ := hr
    simp [employeeRow]
  · intro n hn h
    simp [kFromInput_of_pos kValue gridData n hn h]
  · intro n hn h
    have h2 : jsParseInt kValue = some (n : Int) := by rw [h, jsParseInt_jsNumberToString]
    simp [kFromInput_of_pos kValue gridData n hn h2]
  · intro h
    simp only [List.dropLast_concat, List.length_map, List.length_range,
      kFromInput_of_falsy kValue gridData h]
    rfl
  · rintro rfl
    rfl
  · rintro c cs rfl hd hws h1 h2
    have b1 : (some c == some '-') = false := by simp [h1]
    have b2 : (some c == some '+') = false := by simp [h2]
    have e1 : ((c :: cs).take 2 == ['0', 'x']) = false := by
      cases cs with
      | nil => simp
      | cons d ds =>
        have : c ≠ '0' := by
          rintro rfl
          exact absurd hd (by decide)
        simp [this]
    have e2 : ((c :: cs).take 2 == ['0', 'X']) = false := by
      cases cs with
      | nil => simp
      | cons d ds =>
        have : c ≠ '0' := by
          rintro rfl
          exact absurd hd (by decide)
        simp [this]
    simp only [jsParseInt, List.dropWhile, hws, List.head?_cons, b1, b2, Bool.or_self,
      Bool.false_eq_true, if_false, e1, e2, List.takeWhile, hd, List.isEmpty_nil, if_true]
  · rintro rfl
    decide

/-- The number of employee rows at the configured value `"abc"` with a solution grid of two
keys. -/
theorem formatGridAsTable_employee_row_count_witness :
    jsParseTimeRange "09:00–11:00".toList = (some 18, some 22) ∧
      jsParseInt "abc".toList = none ∧
      ∃ t, formatGridAsTable "abc".toList
          (some [("K1".toList, ["A".toList]), ("K2".toList, [])]) none
          "09:00–11:00".toList "OPTIMAL".toList = .table t ∧
        t.bodyRows.dropLast.length = 2 :=
  ⟨by decide, by decide,
    let ⟨t, ht, _, _, _, _, hfalsy, _⟩ :=
      formatGridAsTable_employee_row_count "abc".toList
        (some [("K1".toList, ["A".toList]), ("K2".toList, [])]) none
        "09:00–11:00".toList "OPTIMAL".toList 18 22 (by simp) (by decide) (by decide)
    ⟨t, ht, (hfalsy (Or.inl (by decide))).trans (by decide)⟩⟩

/-! ## The job-definition store -/

theorem findIndex_append_of_first {α : Type} (p : α → Bool) (pre : List α) (x : α)
    (post : List α) (hx : p x = true) (hpre : ∀ y ∈ pre, p y = false) :
    findIndex p (pre ++ x :: post) = some pre.length := by
  induction pre with
  | nil => simp [findIndex, hx]
  | cons a l ih =>
    have ha : p a = false := hpre a (List.mem_cons_self _ _)
    have hl : ∀ y ∈ l, p y = false := fun y hy => hpre y (List.mem_cons_of_mem _ hy)
    simp [findIndex, ha, ih hl]

theorem findIndex_of_all_false {α : Type} (p : α → Bool) (l : List α)
    (h : ∀ y ∈ l, p y = false) : findIndex p l = none := by
  induction l with
  | nil => rfl
  | cons a l ih =>
    have ha : p a = false := h a (List.mem_cons_self _ _)
    have hl : ∀ y ∈ l, p y = false := fun y hy => h y (List.mem_cons_of_mem _ hy)
    simp [findIndex, ha, ih hl]

theorem set_append_length {α : Type} (pre : List α) (x y : α) (post : List α) :
    (pre ++ x :: post).set pre.length y = pre ++ y :: post := by
  induction pre with
  | nil => rfl
  | cons a l ih => simp [ih]

theorem handleAddJobDefinition_rejected (toUpperCase : JsString → JsString)
    (localeCompare : JsString → JsString → Int) (st : JobStore) (codeValue : JsString)
    (h : toUpperCase (jsTrim codeValue) = [] ∨ st.currentJobTimeRanges = []) :
    handleAddJobDefinition toUpperCase localeCompare st codeValue = st := by
  unfold handleAddJobDefinition
  rcases h with h | h
  · simp [h]
  · simp [h]

theorem handleAddJobDefinition_new (toUpperCase : JsString → JsString)
    (localeCompare : JsString → JsString → Int) (st : JobStore) (codeValue : JsString)
    (hcode : toUpperCase (jsTrim codeValue) ≠ []) (hpending : st.currentJobTimeRanges ≠ [])
    (hnew : ∀ y ∈ st.allJobDefinitions, y.code ≠ toUpperCase (jsTrim codeValue)) :
    handleAddJobDefinition toUpperCase localeCompare st codeValue =
      { currentJobTimeRanges := [],
        allJobDefinitions :=
          (st.allJobDefinitions ++
            [({ code := toUpperCase (jsTrim codeValue),
                times := st.currentJobTimeRanges } : JobDefinition)]).insertionSort
            fun a b => localeCompare a.code b.code ≤ 0 } := by
  have h1 : (toUpperCase (jsTrim codeValue)).isEmpty = false := by
    cases h : toUpperCase (jsTrim codeValue) with
    | nil => exact absurd h hcode
    | cons c cs => rfl
  have h2 : ¬ st.currentJobTimeRanges.length = 0 := by
    intro h
    exact hpending (List.length_eq_zero.mp h)
  have h3 : findIndex (fun job : JobDefinition => job.code == toUpperCase (jsTrim codeValue))
      st.allJobDefinitions = none :=
    findIndex_of_all_false _ _ (fun y hy => by simpa using hnew y hy)
  unfold handleAddJobDefinition
  simp only [h1, Bool.false_eq_true, if_false, h2, h3]

theorem handleAddJobDefinition_merge (toUpperCase : JsString → JsString)
    (localeCompare : JsString → JsString → Int) (st : JobStore) (codeValue : JsString)
    (pre : List JobDefinition) (job : JobDefinition) (post : List JobDefinition)
    (hcode : toUpperCase (jsTrim codeValue) ≠ []) (hpending : st.currentJobTimeRanges ≠ [])
    (hjobs : st.allJobDefinitions = pre ++ job :: post)
    (hjob : job.code = toUpperCase (jsTrim codeValue))
    (hpre : ∀ y ∈ pre, y.code ≠ toUpperCase (jsTrim codeValue)) :
    handleAddJobDefinition toUpperCase localeCompare st codeValue =
      { currentJobTimeRanges := [],
        allJobDefinitions :=
          (pre ++
            ({ code := job.code,
               times := jsSort (job.times ++
                 st.currentJobTimeRanges.filter fun t => !job.times.contains t) } :
              JobDefinition) ::
            post).insertionSort
            fun a b => localeCompare a.code b.code ≤ 0 } := by
  have h1 : (toUpperCase (jsTrim codeValue)).isEmpty = false := by
    cases h : toUpperCase (jsTrim codeValue) with
    | nil => exact absurd h hcode
    | cons c cs => rfl
  have h2 : ¬ st.currentJobTimeRanges.length = 0 := by
    intro h
    exact hpending (List.length_eq_zero.mp h)
  have h3 : findIndex (fun job : JobDefinition => job.code == toUpperCase (jsTrim codeValue))
      st.allJobDefinitions = some pre.length := by
    rw [hjobs]
    exact findIndex_append_of_first _ _ _ _ (by simpa using hjob)
      (fun y hy => by simpa using hpre y hy)
  have h4 : st.allJobDefinitions[pre.length]? = some job := by
    rw [hjobs, List.getElem?_append_right (le_refl _)]
    simp
  unfold handleAddJobDefinition
  simp only [h1, Bool.false_eq_true, if_false, h2, h3, h4]
  rw [hjobs, set_append_length]

theorem exists_first_or_none {α : Type} (p : α → Prop) [DecidablePred p] (l : List α) :
    (∀ y ∈ l, ¬ p y) ∨
      ∃ pre x post, l = pre ++ x :: post ∧ p x ∧ ∀ y ∈ pre, ¬ p y := by
  induction l with
  | nil => exact Or.inl (by simp)
  | cons a l ih =>
    by_cases ha : p a
    · exact Or.inr ⟨[], a, l, rfl, ha, by simp⟩
    · rcases ih with h | ⟨pre, x, post, rfl, hx, hpre⟩
      · refine Or.inl (fun y hy => ?_)
        rcases List.mem_cons.mp hy with rfl | hy
        · exact ha
        · exact h y hy
      · refine Or.inr ⟨a :: pre, x, post, rfl, hx, fun y hy => ?_⟩
        rcases List.mem_cons.mp hy with rfl | hy
        · exact ha
        · exact hpre y hy

theorem mergedTimes_mem (old pending : List JsString) (x : JsString) :
    x ∈ jsSort (old ++ pending.filter fun t => !old.contains t) ↔ x ∈ old ∨ x ∈ pending := by
  rw [mem_jsSort, List.mem_append, List.mem_filter]
  by_cases hx : x ∈ old <;> simp [hx]

theorem mergedTimes_nodup (old pending : List JsString) (hold : old.Nodup)
    (hpending : pending.Nodup) :
    (jsSort (old ++ pending.filter fun t => !old.contains t)).Nodup := by
  apply jsSort_nodup
  refine List.Nodup.append hold (hpending.filter _) ?_
  intro x hx hf
  rw [List.mem_filter] at hf
  simp [hx] at hf

theorem handleAddJobTime_jobs (st : JobStore) (start endValue : JsString) :
    (handleAddJobTime st start endValue).allJobDefinitions = st.allJobDefinitions := by
  unfold handleAddJobTime
  split_ifs with h1
  · rfl
  · split
    · dsimp only
      split_ifs <;> rfl
    · rfl

theorem handleAddJobTime_pending (st : JobStore) (start endValue : JsString) :
    (handleAddJobTime st start endValue).currentJobTimeRanges = st.currentJobTimeRanges ∨
      ∃ timeRange, timeRange ∉ st.currentJobTimeRanges ∧
        (handleAddJobTime st start endValue).currentJobTimeRanges =
          jsSort (st.currentJobTimeRanges ++ [timeRange]) := by
  unfold handleAddJobTime
  split_ifs with h1
  · exact Or.inl rfl
  · split
    · dsimp only
      split_ifs with h2 h3
      · exact Or.inl rfl
      · exact Or.inl rfl
      · exact Or.inr ⟨_, h3, rfl⟩
    · exact Or.inl rfl

theorem storeInvariant_step (toUpperCase : JsString → JsString)
    (localeCompare : JsString → JsString → Int) (st : JobStore) (ev : JobEvent)
    (h : StoreInvariant toUpperCase st) :
    StoreInvariant toUpperCase (handleEvent toUpperCase localeCompare st ev) := by
  obtain ⟨hps, hpn, hcodes, hjobs⟩ := h
  cases ev with
  | addJobTime start endValue =>
    show StoreInvariant toUpperCase (handleAddJobTime st start endValue)
    unfold StoreInvariant
    rw [handleAddJobTime_jobs]
    refine ⟨?_, ?_, hcodes, hjobs⟩
    · rcases handleAddJobTime_pending st start endValue with h | ⟨r, _, h⟩
      · rw [h]; exact hps
      · rw [h]; exact jsSort_sorted _
    · rcases handleAddJobTime_pending st start endValue with h | ⟨r, hr, h⟩
      · rw [h]; exact hpn
      · rw [h]
        exact jsSort_nodup _ (List.Nodup.append hpn (List.nodup_singleton _) (by simpa using hr))
  | deleteJobTime index =>
    exact ⟨hps.sublist (List.eraseIdx_sublist _ _), hpn.sublist (List.eraseIdx_sublist _ _),
      hcodes, hjobs⟩
  | clearJobs confirmed =>
    show StoreInvariant toUpperCase (handleClearJobs st confirmed)
    unfold handleClearJobs
    cases confirmed
    · exact ⟨hps, hpn, hcodes, hjobs⟩
    · exact ⟨hps, hpn, by simp, by simp⟩
  | addJobDefinition codeValue =>
    show StoreInvariant toUpperCase
      (handleAddJobDefinition toUpperCase localeCompare st codeValue)
    by_cases hrej : toUpperCase (jsTrim codeValue) = [] ∨ st.currentJobTimeRanges = []
    · rw [handleAddJobDefinition_rejected _ _ _ _ hrej]
      exact ⟨hps, hpn, hcodes, hjobs⟩
    · push_neg at hrej
      obtain ⟨hcode, hpending⟩ := hrej
      rcases exists_first_or_none
          (fun y : JobDefinition => y.code = toUpperCase (jsTrim codeValue))
          st.allJobDefinitions with hnew | ⟨pre, job, post, hdec, hjob, hpre⟩
      · rw [handleAddJobDefinition_new _ _ _ _ hcode hpending hnew]
        have hperm := List.perm_insertionSort
          (fun a b : JobDefinition => localeCompare a.code b.code ≤ 0)
          (st.allJobDefinitions ++
            [({ code := toUpperCase (jsTrim codeValue),
                times := st.currentJobTimeRanges } : JobDefinition)])
        refine ⟨List.sorted_nil, List.nodup_nil, ?_, ?_⟩
        · refine ((hperm.map JobDefinition.code).nodup_iff).mpr ?_
          rw [List.map_append]
          refine List.Nodup.append hcodes (List.nodup_singleton _) ?_
          intro c hc hc2
          simp only [List.map_cons, List.map_nil, List.mem_singleton] at hc2
          obtain ⟨y, hy, rfl⟩ := List.mem_map.mp hc
          exact hnew y hy hc2
        · intro j hj
          have hj2 := hperm.mem_iff.mp hj
          rcases List.mem_append.mp hj2 with hj3 | hj3
          · exact hjobs j hj3
          · rw [List.mem_singleton] at hj3
            subst hj3
            exact ⟨hcode, ⟨codeValue, rfl⟩, hpending, hpn, hps⟩
      · rw [handleAddJobDefinition_merge _ _ _ _ pre job post hcode hpending hdec hjob hpre]
        have hperm := List.perm_insertionSort
          (fun a b : JobDefinition => localeCompare a.code b.code ≤ 0)
          (pre ++
            ({ code := job.code,
               times := jsSort (job.times ++
                 st.currentJobTimeRanges.filter fun t => !job.times.contains t) } :
              JobDefinition) :: post)
        have hjobmem : job ∈ st.allJobDefinitions := by
          rw [hdec]
          simp
        obtain ⟨j1, j2, j3, j4, _⟩ := hjobs job hjobmem
        refine ⟨List.sorted_nil, List.nodup_nil, ?_, ?_⟩
        · refine ((hperm.map JobDefinition.code).nodup_iff).mpr ?_
          rw [hdec] at hcodes
          simpa using hcodes
        · intro j hj
          have hj2 := hperm.mem_iff.mp hj
          rw [List.mem_append, List.mem_cons] at hj2
          rcases hj2 with hj3 | rfl | hj3
          · exact hjobs j (by rw [hdec]; simp [hj3])
          · refine ⟨j1, j2, ?_, mergedTimes_nodup _ _ j4 hpn, jsSort_sorted _⟩
            intro hnil
            obtain ⟨x, xs, hx⟩ := List.exists_cons_of_ne_nil j3
            have : x ∈ jsSort (job.times ++
                st.currentJobTimeRanges.filter fun t => !job.times.contains t) := by
              rw [mergedTimes_mem]
              exact Or.inl (by rw [hx]; exact List.mem_cons_self _ _)
            simp only at hnil
            rw [hnil] at this
            exact absurd this (List.not_mem_nil _)
          · exact hjobs j (by rw [hdec]; simp [hj3])

theorem storeInvariant_runEvents (toUpperCase : JsString → JsString)
    (localeCompare : JsString → JsString → Int) (events : List JobEvent) :
    StoreInvariant toUpperCase (runEvents toUpperCase localeCompare events) := by
  have gen : ∀ (evs : List JobEvent) (st : JobStore), StoreInvariant toUpperCase st →
      StoreInvariant toUpperCase (evs.foldl (handleEvent toUpperCase localeCompare) st) := by
    intro evs
    induction evs with
    | nil => intro st h; exact h
    | cons ev evs ih =>
      intro st h
      exact ih _ (storeInvariant_step toUpperCase localeCompare st ev h)
  exact gen events initialStore
    ⟨List.sorted_nil, List.nodup_nil, List.nodup_nil, by simp [initialStore]⟩

theorem sorted_insertionSort_by_code (localeCompare : JsString → JsString → Int)
    (htotal : ∀ a b, localeCompare a b ≤ 0 ∨ localeCompare b a ≤ 0)
    (htrans : ∀ a b c, localeCompare a b ≤ 0 → localeCompare b c ≤ 0 → localeCompare a c ≤ 0)
    (l : List JobDefinition) :
    (l.insertionSort fun a b => localeCompare a.code b.code ≤ 0).Sorted
      fun a b => localeCompare a.code b.code ≤ 0 := by
  haveI : IsTotal JobDefinition (fun a b => localeCompare a.code b.code ≤ 0) :=
    ⟨fun a b => htotal a.code b.code⟩
  haveI : IsTrans JobDefinition (fun a b => localeCompare a.code b.code ≤ 0) :=
    ⟨fun a b c => htrans a.code b.code c.code⟩
  exact List.sorted_insertionSort _ l

theorem jobsSorted_step (toUpperCase : JsString → JsString)
    (localeCompare : JsString → JsString → Int)
    (htotal : ∀ a b, localeCompare a b ≤ 0 ∨ localeCompare b a ≤ 0)
    (htrans : ∀ a b c, localeCompare a b ≤ 0 → localeCompare b c ≤ 0 → localeCompare a c ≤ 0)
    (st : JobStore) (ev : JobEvent)
    (h : st.allJobDefinitions.Sorted fun a b => localeCompare a.code b.code ≤ 0) :
    (handleEvent toUpperCase localeCompare st ev).allJobDefinitions.Sorted
      fun a b => localeCompare a.code b.code ≤ 0 := by
  cases ev with
  | addJobTime start endValue =>
    show (handleAddJobTime st start endValue).allJobDefinitions.Sorted _
    rw [handleAddJobTime_jobs]
    exact h
  | deleteJobTime index => exact h
  | clearJobs confirmed =>
    show (handleClearJobs st confirmed).allJobDefinitions.Sorted _
    unfold handleClearJobs
    cases confirmed
    · exact h
    · exact List.sorted_nil
  | addJobDefinition codeValue =>
    show (handleAddJobDefinition toUpperCase localeCompare st codeValue).allJobDefinitions.Sorted _
    by_cases hrej : toUpperCase (jsTrim codeValue) = [] ∨ st.currentJobTimeRanges = []
    · rw [handleAddJobDefinition_rejected _ _ _ _ hrej]
      exact h
    · push_neg at hrej
      obtain ⟨hcode, hpending⟩ := hrej
      rcases exists_first_or_none
          (fun y : JobDefinition => y.code = toUpperCase (jsTrim codeValue))
          st.allJobDefinitions with hnew | ⟨pre, job, post, hdec, hjob, hpre⟩
      · rw [handleAddJobDefinition_new _ _ _ _ hcode hpending hnew]
        exact sorted_insertionSort_by_code localeCompare htotal htrans _
      · rw [handleAddJobDefinition_merge _ _ _ _ pre job post hcode hpending hdec hjob hpre]
        exact sorted_insertionSort_by_code localeCompare htotal htrans _

theorem jobsSorted_runEvents (toUpperCase : JsString → JsString)
    (localeCompare : JsString → JsString → Int)
    (htotal : ∀ a b, localeCompare a b ≤ 0 ∨ localeCompare b a ≤ 0)
    (htrans : ∀ a b c, localeCompare a b ≤ 0 → localeCompare b c ≤ 0 → localeCompare a c ≤ 0)
    (events : List JobEvent) :
    (runEvents toUpperCase localeCompare events).allJobDefinitions.Sorted
      fun a b => localeCompare a.code b.code ≤ 0 := by
  have gen : ∀ (evs : List JobEvent) (st : JobStore),
      (st.allJobDefinitions.Sorted fun a b => localeCompare a.code b.code ≤ 0) →
      (evs.foldl (handleEvent toUpperCase localeCompare) st).allJobDefinitions.Sorted
        fun a b => localeCompare a.code b.code ≤ 0 := by
    intro evs
    induction evs with
    | nil => intro st h; exact h
    | cons ev evs ih =>
      intro st h
      exact ih _ (jobsSorted_step toUpperCase localeCompare htotal htrans st ev h)
  exact gen events initialStore List.sorted_nil

theorem sorted_by_code_congr (localeCompare : JsString → JsString → Int)
    (l₁ l₂ : List JobDefinition)
    (hcodes : l₁.map JobDefinition.code = l₂.map JobDefinition.code)
    (h : l₁.Sorted fun a b => localeCompare a.code b.code ≤ 0) :
    l₂.Sorted fun a b => localeCompare a.code b.code ≤ 0 := by
  have h1 : (l₁.map JobDefinition.code).Pairwise (fun c d => localeCompare c d ≤ 0) :=
    List.pairwise_map.mpr h
  rw [hcodes] at h1
  exact List.pairwise_map.mp h1

/-! ## Claims about the job-definition store -/

/-- C13: in a store reached from the freshly loaded page, with a non-empty list of pending
ranges, committing a job whose trimmed and upper-cased code is the code of an existing job
adds no entry: the number of jobs is unchanged, the jobs are the old ones with the existing job
replaced by a job of the same code (in the same order when `localeCompare` is a consistent
comparison), and the times of that job are the strictly increasing list of the ranges that are
in its old times or in the pending list. Committing `a` with `09:00–10:00` and then `A` with
`10:00–11:00` on the empty store gives exactly one job `A` with both ranges in order. -/
theorem handleAddJobDefinition_existing_code (toUpperCase : JsString → JsString)
    (localeCompare : JsString → JsString → Int) (events : List JobEvent)
    (codeValue : JsString) (job : JobDefinition)
    (hpending : (runEvents toUpperCase localeCompare events).currentJobTimeRanges ≠ [])
    (hmem : job ∈ (runEvents toUpperCase localeCompare events).allJobDefinitions)
    (hcode : job.code = toUpperCase (jsTrim codeValue)) :
    (∃ pre post newTimes,
      (runEvents toUpperCase localeCompare events).allJobDefinitions = pre ++ job :: post ∧
      (handleAddJobDefinition toUpperCase localeCompare
          (runEvents toUpperCase localeCompare events) codeValue).allJobDefinitions.length =
        (runEvents toUpperCase localeCompare events).allJobDefinitions.length ∧
      (handleAddJobDefinition toUpperCase localeCompare
          (runEvents toUpperCase localeCompare events) codeValue).allJobDefinitions.Perm
        (pre ++ ({ code := job.code, times := newTimes } : JobDefinition) :: post) ∧
      newTimes.Sorted (fun a b => a < b) ∧
      (∀ x, x ∈ newTimes ↔
        x ∈ job.times ∨
          x ∈ (runEvents toUpperCase localeCompare events).currentJobTimeRanges) ∧
      ((∀ a b, localeCompare a b ≤ 0 ∨ localeCompare b a ≤ 0) →
        (∀ a b c, localeCompare a b ≤ 0 → localeCompare b c ≤ 0 → localeCompare a c ≤ 0) →
        (handleAddJobDefinition toUpperCase localeCompare
            (runEvents toUpperCase localeCompare events) codeValue).allJobDefinitions =
          pre ++ ({ code := job.code, times := newTimes } : JobDefinition) :: post)) ∧
      (toUpperCase "a".toList = "A".toList → toUpperCase "A".toList = "A".toList →
        (runEvents toUpperCase localeCompare
            [.addJobTime "09:00".toList "10:00".toList, .addJobDefinition "a".toList,
              .addJobTime "10:00".toList "11:00".toList,
              .addJobDefinition "A".toList]).allJobDefinitions =
          [{ code := "A".toList, times := ["09:00–10:00".toList, "10:00–11:00".toList] }]) := by
  constructor
  · obtain ⟨hps, hpn, hcodes, hjobs⟩ :=
      storeInvariant_runEvents toUpperCase localeCompare events
    obtain ⟨pre, post, hdec⟩ := List.append_of_mem hmem
    obtain ⟨j1, _, _, j4, _⟩ := hjobs job hmem
    have hcodeNe : toUpperCase (jsTrim codeValue) ≠ [] := by
      rw [← hcode]
      exact j1
    have hpre : ∀ y ∈ pre, y.code ≠ toUpperCase (jsTrim codeValue) := by
      intro y hy hyc
      rw [hdec, List.map_append, List.map_cons] at hcodes
      have hdis := (List.nodup_append.mp hcodes).2.2
      exact hdis (List.mem_map_of_mem JobDefinition.code hy)
        (by rw [hyc, ← hcode]; exact List.mem_cons_self _ _)
    have hres := handleAddJobDefinition_merge toUpperCase localeCompare _ codeValue pre job post
      hcodeNe hpending hdec hcode hpre
    have hperm := List.perm_insertionSort
      (fun a b : JobDefinition => localeCompare a.code b.code ≤ 0)
      (pre ++
        ({ code := job.code,
           times := jsSort (job.times ++
             (runEvents toUpperCase localeCompare events).currentJobTimeRanges.filter
               fun t => !job.times.contains t) } : JobDefinition) :: post)
    refine ⟨pre, post, _, hdec, ?_, ?_, jsSort_strict _ ?_, mergedTimes_mem _ _, ?_⟩
    · rw [hres, hdec]
      simp only []
      rw [hperm.length_eq]
      simp
    · rw [hres]
      exact hperm
    · refine List.Nodup.append j4 (hpn.filter _) ?_
      intro x hx hf
      rw [List.mem_filter] at hf
      simp [hx] at hf
    · intro htotal htrans
      rw [hres]
      have hsorted := jobsSorted_runEvents toUpperCase localeCompare htotal htrans events
      rw [hdec] at hsorted
      exact List.Sorted.insertionSort_eq
        (sorted_by_code_congr localeCompare _ _ (by simp) hsorted)
  · intro ha hA
    have t1 : jsTrim "a".toList = "a".toList := by decide
    have t2 : jsTrim "A".toList = "A".toList := by decide
    have e1 : handleAddJobTime initialStore "09:00".toList "10:00".toList =
        { currentJobTimeRanges := ["09:00–10:00".toList], allJobDefinitions := [] } := by
      decide
    have e2 : handleAddJobDefinition toUpperCase localeCompare
        { currentJobTimeRanges := ["09:00–10:00".toList], allJobDefinitions := [] }
        "a".toList =
        { currentJobTimeRanges := [],
          allJobDefinitions :=
            [{ code := "A".toList, times := ["09:00–10:00".toList] }] } := by
      rw [handleAddJobDefinition_new _ _ _ _ (by rw [t1, ha]; decide) (by decide) (by simp),
        t1, ha]
      rfl
    have e3 : handleAddJobTime
        { currentJobTimeRanges := [],
          allJobDefinitions :=
            [{ code := "A".toList, times := ["09:00–10:00".toList] }] }
        "10:00".toList "11:00".toList =
        { currentJobTimeRanges := ["10:00–11:00".toList],
          allJobDefinitions :=
            [{ code := "A".toList, times := ["09:00–10:00".toList] }] } := by
      decide
    have e4 : handleAddJobDefinition toUpperCase localeCompare
        { currentJobTimeRanges := ["10:00–11:00".toList],
          allJobDefinitions :=
            [{ code := "A".toList, times := ["09:00–10:00".toList] }] }
        "A".toList =
        { currentJobTimeRanges := [],
          allJobDefinitions :=
            [{ code := "A".toList,
               times := ["09:00–10:00".toList, "10:00–11:00".toList] }] } := by
      rw [handleAddJobDefinition_merge _ _ _ _ []
        { code := "A".toList, times := ["09:00–10:00".toList] } []
        (by rw [t2, hA]; decide) (by decide) rfl (by rw [t2, hA]) (by simp)]
      have e5 : jsSort (["09:00–10:00".toList] ++
          (["10:00–11:00".toList].filter fun t =>
            !(["09:00–10:00".toList] : List JsString).contains t)) =
          ["09:00–10:00".toList, "10:00–11:00".toList] := by
        decide
      simp only [e5]
      rfl
    simp only [runEvents, List.foldl, handleEvent, e1, e2, e3, e4]

/-- Witness of C13: after `09:00–10:00` is committed under the code `a` and `10:00–11:00` is
pending, committing the code `A` keeps the number of jobs. -/
theorem handleAddJobDefinition_existing_code_witness :
    (runEvents asciiUpperCase codeUnitCompare
        [.addJobTime "09:00".toList "10:00".toList, .addJobDefinition "a".toList,
          .addJobTime "10:00".toList "11:00".toList]).currentJobTimeRanges ≠ [] ∧
      ({ code := "A".toList, times := ["09:00–10:00".toList] } : JobDefinition) ∈
        (runEvents asciiUpperCase codeUnitCompare
          [.addJobTime "09:00".toList "10:00".toList, .addJobDefinition "a".toList,
            .addJobTime "10:00".toList "11:00".toList]).allJobDefinitions ∧
      (handleAddJobDefinition asciiUpperCase codeUnitCompare
          (runEvents asciiUpperCase codeUnitCompare
            [.addJobTime "09:00".toList "10:00".toList, .addJobDefinition "a".toList,
              .addJobTime "10:00".toList "11:00".toList])
          "A".toList).allJobDefinitions.length =
        (runEvents asciiUpperCase codeUnitCompare
          [.addJobTime "09:00".toList "10:00".toList, .addJobDefinition "a".toList,
            .addJobTime "10:00".toList "11:00".toList]).allJobDefinitions.length :=
  ⟨by decide, by decide,
    let ⟨⟨_, _, _, _, hlen, _⟩, _⟩ :=
      handleAddJobDefinition_existing_code asciiUpperCase codeUnitCompare
        [.addJobTime "09:00".toList "10:00".toList, .addJobDefinition "a".toList,
          .addJobTime "10:00".toList "11:00".toList]
        "A".toList { code := "A".toList, times := ["09:00–10:00".toList] }
        (by decide) (by decide) (by decide)
    hlen⟩

/-- C14: every store reached from the freshly loaded page by any sequence of `handleAddJobTime`,
deletions of a pending range, `handleAddJobDefinition` and `handleClearJobs` has pairwise
distinct job codes; every code is non-empty and is the upper case of a trimmed string (so it is
fixed by `toUpperCase` and by `trim` when upper-casing is idempotent and keeps trimmed strings
trimmed); the jobs are sorted by code in the order of `localeCompare`, when that is a
consistent comparison; every job has a non-empty list of times without repetition, sorted
in lexicographic order. -/
theorem runEvents_store_invariant (toUpperCase : JsString → JsString)
    (localeCompare : JsString → JsString → Int) (events : List JobEvent) :
    ((runEvents toUpperCase localeCompare events).allJobDefinitions.map
        JobDefinition.code).Nodup ∧
      (∀ job ∈ (runEvents toUpperCase localeCompare events).allJobDefinitions,
        job.code ≠ [] ∧ (∃ v, job.code = toUpperCase (jsTrim v)) ∧ job.times ≠ [] ∧
          job.times.Nodup ∧ job.times.Sorted (fun a b => a < b)) ∧
      ((∀ s, toUpperCase (toUpperCase s) = toUpperCase s) →
        (∀ s, jsTrim (toUpperCase (jsTrim s)) = toUpperCase (jsTrim s)) →
        ∀ job ∈ (runEvents toUpperCase localeCompare events).allJobDefinitions,
          toUpperCase job.code = job.code ∧ jsTrim job.code = job.code) ∧
      ((∀ a b, localeCompare a b ≤ 0 ∨ localeCompare b a ≤ 0) →
        (∀ a b c, localeCompare a b ≤ 0 → localeCompare b c ≤ 0 → localeCompare a c ≤ 0) →
        (runEvents toUpperCase localeCompare events).allJobDefinitions.Sorted
          fun a b => localeCompare a.code b.code ≤ 0) := by
  obtain ⟨_, _, hcodes, hjobs⟩ := storeInvariant_runEvents toUpperCase localeCompare events
  refine ⟨hcodes, ?_, ?_, ?_⟩
  · intro job hjob
    obtain ⟨j1, j2, j3, j4, j5⟩ := hjobs job hjob
    exact ⟨j1, j2, j3, j4, j5.lt_of_le j4⟩
  · intro hidem htrim job hjob
    obtain ⟨_, ⟨v, hv⟩, _⟩ := hjobs job hjob
    rw [hv]
    exact ⟨hidem _, htrim v⟩
  · intro htotal htrans
    exact jobsSorted_runEvents toUpperCase localeCompare htotal htrans events

end ShiftScheduler
